import Mathlib

/-!
# signals.h : a verification development

Shallow embedding of `src/signals.h` (`signals::signal<void(Args...)>` and its
nested `connection`).

Memory is explicit.  Objects live at addresses (`Nat`):

* `signal` objects in `World.sigs` (`none` : no live object at that address),
* the `bool` owned by the `std::shared_ptr<bool>` flags in `World.flags`,
* `connection` variables in `World.conns`,
* the nodes of a `std::list<slot_t>` carry the address that an iterator
  designates (`Node.id`); iterators stay valid until their node is erased.

A `slot_t` (`std::function<void(Args...)>`) is either empty or holds a callable.
The code of a callable is client code; it is given by a table `Env.code` of
statement lists, interpreted by `run`.  A dereference of a null pointer, of a
destroyed object or of an iterator whose node is gone is `Res.undefined`.

The function object held by a slot is represented by the number of its code, and
its lifetime is not represented: the statements of a callable are taken from
`Env.code` and are run to the end even after the slot it was called from has been
emptied (line 55) or its signal destroyed.  In the program the function object
under execution is destroyed at that point, and a callable that then uses its own
state has undefined behaviour.
-/

namespace signals

/-- Modulus of `size_t` arithmetic (`inside_emit` is a `size_t`). -/
def SIZE_MOD : Nat := 2 ^ 64

/-- The type `slot_t = std::function<void(Args...)>`: `none` is the empty function
(`slot_t()`, contextually `false`), `some c` holds the callable number `c`. -/
abbrev slot_t := Option Nat

/-- A node of `slots_t = std::list<slot_t>`; `id` is what an iterator designates. -/
structure Node where
  id : Nat
  slot : slot_t
  deriving DecidableEq

abbrev slots_t := List Node

/-- Data members of `signal` (lines 127-129). `destroyed` is the address of the shared flag. -/
structure signal where
  slots : slots_t
  inside_emit : Nat
  destroyed : Nat
  deriving DecidableEq

/-- Data members of `connection` (lines 66-68); the defaults are those of `connection() = default`. -/
structure connection where
  sig : Option Nat := none
  destroyed : Option Nat := none
  it : Option Nat := none
  deriving DecidableEq

/-- The program state: the heap of signals, flags and connection variables, the next unused
address, and the list of observations `(tag, argument)` made by callables. -/
structure World (α : Type) where
  sigs : Nat → Option signal
  flags : Nat → Bool
  conns : Nat → connection
  fresh : Nat
  log : List (Nat × α)

/-- Outcome of running code: normal return, a propagating exception, undefined behaviour,
or an exhausted evaluation budget. -/
inductive Res (σ : Type) where
  | ok (w : σ)
  | thrown (e : Nat) (w : σ)
  | undefined
  | timeout

/-- Statements of client code (callable bodies and top-level programs).
The received argument of the enclosing callable is `a` in `exec`. -/
inductive Stmt (α : Type) where
  /-- observe the received argument under a tag -/
  | record (tag : Nat)
  /-- construct `signal()` at address `s` -/
  | construct (s : Nat)
  /-- copy-construct the signal at `d` from the one at `s` -/
  | copy (d s : Nat)
  /-- the object at `s` is destroyed (`~signal`) -/
  | destroy (s : Nat)
  /-- evaluate `conns[h] = sigs[s].connect(f)` -/
  | connect (s h : Nat) (f : slot_t)
  /-- evaluate `conns[h].disconnect()` -/
  | disconnect (h : Nat)
  /-- evaluate `conns[d] = std::move(conns[s])` -/
  | move (d s : Nat)
  /-- evaluate `sigs[s](x)` -/
  | emit (s : Nat) (x : α)
  /-- throw `e` when the received argument satisfies `p` -/
  | raise (p : α → Bool) (e : Nat)
  /-- evaluate `sigs[s](x)` when the received argument satisfies `p` -/
  | emit_if (p : α → Bool) (s : Nat) (x : α)

/-- What the client supplies: the code of each callable, and what is left in the by-value
parameter pack `args` of `operator()` after `std::forward<Args>(args)...` has initialised the
parameters of a call (the identity for `int`; the moved-from state for a movable class type). -/
structure Env (α : Type) where
  code : Nat → List (Stmt α)
  forwarded : α → α

variable {α : Type}

/-- The empty heap before the program starts. -/
def World.init : World α :=
  { sigs := fun _ => none, flags := fun _ => false, conns := fun _ => {}, fresh := 0, log := [] }

def World.setSig (w : World α) (s : Nat) (v : Option signal) : World α :=
  { w with sigs := fun k => if k = s then v else w.sigs k }

def World.setFlag (w : World α) (d : Nat) (b : Bool) : World α :=
  { w with flags := fun k => if k = d then b else w.flags k }

def World.setConn (w : World α) (h : Nat) (c : connection) : World α :=
  { w with conns := fun k => if k = h then c else w.conns k }

def World.addLog (w : World α) (l : List (Nat × α)) : World α :=
  { w with log := w.log ++ l }

/-! ## std::list primitives -/

/-- The iterator `slots.begin()`; `none` is `slots.end()`. -/
def slots_begin (l : slots_t) : Option Nat := (l.head?).map Node.id

/-- Dereference `*i` for the iterator designating node `i`; `none` when no such node is in the list. -/
def slots_deref : slots_t → Nat → Option Node
  | [], _ => none
  | n :: t, i => if n.id = i then some n else slots_deref t i

/-- Increment `++i`: the iterator after node `i` (`some none` is `end()`), `none` when node `i`
is not in the list. -/
def slots_next : slots_t → Nat → Option (Option Nat)
  | [], _ => none
  | n :: t, i => if n.id = i then some (slots_begin t) else slots_next t i

/-- The call `slots.erase(it)`: unlinks node `i`. -/
def slots_erase : slots_t → Nat → slots_t
  | [], _ => []
  | n :: t, i => if n.id = i then t else n :: slots_erase t i

/-- The assignment `*it = slot_t()`: empties the function held by node `i`. -/
def slots_clear : slots_t → Nat → slots_t
  | [], _ => []
  | n :: t, i => if n.id = i then { n with slot := none } :: t else n :: slots_clear t i

/-- Copy of a list (`slots(other.slots)`): same functions, new nodes from address `b` on. -/
def slots_copy : Nat → slots_t → slots_t
  | _, [] => []
  | b, n :: t => { id := b, slot := n.slot } :: slots_copy (b + 1) t

/-- The loop of `leave_emit` (lines 122-124): `*i ? ++i : i = slots.erase(i)`. -/
def compact : slots_t → slots_t
  | [] => []
  | n :: t => if n.slot.isSome then n :: compact t else compact t

/-! ## connection -/

/-- Constructor `connection(signal *sig, iterator it)` (lines 21-25). -/
def connection.ctor (w : World α) (sig : Option Nat) (it : Option Nat) : Option connection :=
  match sig with
  | none => some { sig := none, it := it, destroyed := none }
  | some s =>
    match w.sigs s with
    | none => none
    | some sg => some { sig := some s, it := it, destroyed := some sg.destroyed }

/-- Move constructor (lines 27-34): the new object and what is left of `other`. -/
def connection.move_ctor (other : connection) : connection × connection :=
  ({ sig := other.sig, it := other.it, destroyed := other.destroyed },
   { other with sig := none, destroyed := none })

/-- Member `connection::disconnect()` (lines 52-63) on the connection value `c`.
`none` is undefined behaviour (null flag, dead signal, or an iterator whose node is gone).
The iterator is resolved in the list of `*sig`: a connection is only made by `connect`, with a
node of that list, and nodes never move to another list. -/
def connection.disconnect (c : connection) (w : World α) : Option (connection × World α) :=
  match c.sig with
  | none => some (c, w)
  | some s =>
    match c.destroyed with
    | none => none
    | some d =>
      if w.flags d then some (c, w)
      else
        match w.sigs s with
        | none => none
        | some sg =>
          match c.it with
          | none => none
          | some i =>
            match slots_deref sg.slots i with
            | none => none
            | some _ =>
              let sl := if sg.inside_emit ≠ 0 then slots_clear sg.slots i else slots_erase sg.slots i
              some ({ c with sig := none, destroyed := none },
                    w.setSig s (some { sg with slots := sl }))

/-- Move assignment (lines 36-46) for two distinct objects (`this != &rhs`): returns the new
`*this`, the new `rhs` and the world. -/
def connection.move_assign (this rhs : connection) (w : World α) :
    Option (connection × connection × World α) :=
  match this.disconnect w with
  | none => none
  | some (_, w1) =>
    some ({ sig := rhs.sig, destroyed := rhs.destroyed, it := rhs.it },
          { rhs with sig := none, destroyed := none }, w1)

/-- Destructor `~connection()` (lines 48-50). -/
def connection.dtor (c : connection) (w : World α) : Option (World α) :=
  (c.disconnect w).map Prod.snd

/-! ## signal -/

/-- Default constructor (line 71) of a signal at address `s`. -/
def signal.ctor (s : Nat) (w : World α) : World α :=
  { (w.setFlag w.fresh false).setSig s
      (some { slots := [], inside_emit := 0, destroyed := w.fresh }) with fresh := w.fresh + 1 }

/-- Copy constructor (lines 73-76) of a signal at address `d` from the one at `s`. -/
def signal.copy_ctor (d s : Nat) (w : World α) : Option (World α) :=
  match w.sigs s with
  | none => none
  | some other =>
    some { (w.setFlag w.fresh false).setSig d
      (some { slots := slots_copy (w.fresh + 1) other.slots, inside_emit := 0,
              destroyed := w.fresh }) with fresh := w.fresh + 1 + other.slots.length }

/-- Destructor (lines 87-89): sets the flag, then the object is gone. -/
def signal.dtor (s : Nat) (w : World α) : Option (World α) :=
  match w.sigs s with
  | none => none
  | some sg => some ((w.setFlag sg.destroyed true).setSig s none)

/-- Member `connect` (lines 91-94): returns the connection and the world. -/
def signal.connect (s : Nat) (slot : slot_t) (w : World α) : Option (connection × World α) :=
  match w.sigs s with
  | none => none
  | some sg =>
    let w1 : World α :=
      { w.setSig s (some { sg with slots := sg.slots ++ [{ id := w.fresh, slot := slot }] }) with
        fresh := w.fresh + 1 }
    (connection.ctor w1 (some s) (some w.fresh)).map (fun c => (c, w1))

/-- Member `leave_emit` (lines 118-125). -/
def signal.leave_emit (s : Nat) (w : World α) : Option (World α) :=
  match w.sigs s with
  | none => none
  | some sg =>
    let n := (sg.inside_emit + SIZE_MOD - 1) % SIZE_MOD
    if n ≠ 0 then some (w.setSig s (some { sg with inside_emit := n }))
    else some (w.setSig s (some { sg with inside_emit := n, slots := compact sg.slots }))

/-- How the `for` loop of `operator()` ends. -/
inductive LoopRes (σ : Type) where
  /-- the iterator reached `slots.end()` -/
  | finished (w : σ)
  /-- the statement `return` of line 105 -/
  | returned (w : σ)
  | thrown (e : Nat) (w : σ)
  | undefined
  | timeout

/-- The `for` loop of `operator()` (lines 101-108) from iterator `i` on, with `local_destroyed`
the flag at `ld`. `call c a w` runs callable `c` on argument `a`. -/
def signal.emit_loop (call : Nat → α → World α → Res (World α)) (fwd : α → α) (s ld : Nat) :
    Nat → Option Nat → α → World α → LoopRes (World α)
  | 0, _, _, _ => .timeout
  | _ + 1, none, _, w => .finished w
  | n + 1, some i, args, w =>
    match w.sigs s with
    | none => .undefined
    | some sg =>
      match slots_deref sg.slots i with
      | none => .undefined
      | some nd =>
        match nd.slot with
        | none =>
          match slots_next sg.slots i with
          | none => .undefined
          | some j => signal.emit_loop call fwd s ld n j args w
        | some c =>
          match call c args w with
          | .ok w1 =>
            if w1.flags ld then .returned w1
            else
              match w1.sigs s with
              | none => .undefined
              | some sg1 =>
                match slots_next sg1.slots i with
                | none => .undefined
                | some j => signal.emit_loop call fwd s ld n j (fwd args) w1
          | .thrown e w1 => .thrown e w1
          | .undefined => .undefined
          | .timeout => .timeout

/-- Member `operator()` (lines 96-115) given the interpreter `call` of callables and `n` loop
iterations. -/
def signal.emit_with (call : Nat → α → World α → Res (World α)) (fwd : α → α) (n : Nat)
    (s : Nat) (args : α) (w : World α) : Res (World α) :=
  match w.sigs s with
  | none => .undefined
  | some sg =>
    let w1 := w.setSig s (some { sg with inside_emit := (sg.inside_emit + 1) % SIZE_MOD })
    let local_destroyed := sg.destroyed
    match signal.emit_loop call fwd s local_destroyed n (slots_begin sg.slots) args w1 with
    | .finished w2 =>
      match signal.leave_emit s w2 with
      | none => .undefined
      | some w3 => .ok w3
    | .returned w2 => .ok w2
    | .thrown e w2 =>
      match signal.leave_emit s w2 with
      | none => .undefined
      | some w3 => .thrown e w3
    | .undefined => .undefined
    | .timeout => .timeout

/-! ## client code -/

/-- One statement, with `emitF` the meaning of `sigs[s](x)`. -/
def exec (emitF : Nat → α → World α → Res (World α)) (a : α) : Stmt α → World α → Res (World α)
  | .record t, w => .ok (w.addLog [(t, a)])
  | .construct s, w => .ok (signal.ctor s w)
  | .copy d s, w =>
    match signal.copy_ctor d s w with
    | none => .undefined
    | some w1 => .ok w1
  | .destroy s, w =>
    match signal.dtor s w with
    | none => .undefined
    | some w1 => .ok w1
  | .connect s h f, w =>
    match signal.connect s f w with
    | none => .undefined
    | some (tmp, w1) =>
      match (w1.conns h).move_assign tmp w1 with
      | none => .undefined
      | some (c, tmp1, w2) =>
        match tmp1.dtor (w2.setConn h c) with
        | none => .undefined
        | some w3 => .ok w3
  | .disconnect h, w =>
    match (w.conns h).disconnect w with
    | none => .undefined
    | some (c, w1) => .ok (w1.setConn h c)
  | .move d s, w =>
    if d = s then .ok w
    else
      match (w.conns d).move_assign (w.conns s) w with
      | none => .undefined
      | some (c, r, w1) => .ok ((w1.setConn d c).setConn s r)
  | .emit s x, w => emitF s x w
  | .raise p e, w => if p a then .thrown e w else .ok w
  | .emit_if p s x, w => if p a then emitF s x w else .ok w

/-- A statement list; an exception or a fault ends it. -/
def run (emitF : Nat → α → World α → Res (World α)) (a : α) :
    List (Stmt α) → World α → Res (World α)
  | [], w => .ok w
  | st :: rest, w =>
    match exec emitF a st w with
    | .ok w1 => run emitF a rest w1
    | r => r

/-- The call `sigs[s](x)` with evaluation budget `fuel` (nesting depth and loop iterations). -/
def emit (env : Env α) : Nat → Nat → α → World α → Res (World α)
  | 0, _, _, _ => .timeout
  | n + 1, s, x, w =>
    signal.emit_with (fun c a w1 => run (emit env n) a (env.code c) w1) env.forwarded n s x w

/-- A top-level program. The argument received at top level is `a` (only `record` reads it). -/
def main (env : Env α) (fuel : Nat) (a : α) (prog : List (Stmt α)) : Res (World α) :=
  run (emit env fuel) a prog World.init

def Res.log? : Res (World α) → Option (List (Nat × α))
  | .ok w => some w.log
  | .thrown _ w => some w.log
  | _ => none

/-! ## Reference behaviour of one pass over callables that only record -/

/-- A statement that only records. -/
def Stmt.isRecord : Stmt α → Bool
  | .record _ => true
  | _ => false

/-- What the `record` statements of a body write when the body receives `a`. -/
def records : List (Stmt α) → α → List (Nat × α)
  | [], _ => []
  | .record t :: rest, a => (t, a) :: records rest a
  | _ :: rest, a => records rest a

/-- Every callable held by the slots only records: it neither raises nor touches a signal
or a connection. -/
def Passive (env : Env α) (l : List slot_t) : Prop :=
  ∀ c, some c ∈ l → ((env.code c).all Stmt.isRecord) = true

/-- The observations of one pass that calls every non-empty slot once, front to back. -/
def pass_log (env : Env α) : List slot_t → α → List (Nat × α)
  | [], _ => []
  | none :: t, a => pass_log env t a
  | some c :: t, a => records (env.code c) a ++ pass_log env t (env.forwarded a)

/-- The state of the parameter pack after such a pass. -/
def pass_arg (env : Env α) : List slot_t → α → α
  | [], a => a
  | none :: t, a => pass_arg env t a
  | some _ :: t, a => pass_arg env t (env.forwarded a)

/-- The functions held by a list, front to back. -/
def fns (l : slots_t) : List slot_t := l.map Node.slot

/-- The node addresses of a list. -/
def ids (l : slots_t) : List Nat := l.map Node.id

/-- The tags recorded by a body. -/
def tags : List (Stmt α) → List Nat
  | [] => []
  | .record t :: rest => t :: tags rest
  | _ :: rest => tags rest

/-- The statements `conns[h] = sigs[s].connect(c0); conns[h+1] = sigs[s].connect(c1); ...`:
one `connect` per callable, each connection kept in a variable of its own. -/
def connects (s : Nat) : Nat → List Nat → List (Stmt α)
  | _, [] => []
  | h, c :: cs => .connect s h (some c) :: connects s (h + 1) cs

/-- The example environment of the specification: callable `c` records under tag `c`, and the
arguments are `int`s (forwarding leaves them unchanged). -/
def env_int : Env Nat := { code := fun c => [.record c], forwarded := id }

/-- The world in which a run ended (the empty heap after a fault). -/
def Res.world : Res (World α) → World α
  | .ok w => w
  | .thrown _ w => w
  | _ => World.init

/-- The specification's example after `connect A` (records 1, kept in `conns[0]`),
`connect B` (records 2, kept in `conns[1]`) and `R(5)`. -/
def world_AB : World Nat :=
  (main env_int 4 0
    [.construct 0, .connect 0 0 (some 1), .connect 0 1 (some 2), .emit 0 5]).world

/-- Example environment over `int` arguments: callable 2 records and then disconnects the
connection `conns[1]`; callable 4 records and then evaluates `conns[9] = sigs[0].connect(7)`;
callable 6 records and throws 99 when it receives 5; every other callable `c` records under
tag `c`. -/
def env_ex : Env Nat :=
  { code := fun c =>
      if c = 2 then [.record 2, .disconnect 1]
      else if c = 4 then [.record 4, .connect 0 9 (some 7)]
      else if c = 6 then [.record 6, .raise (fun v => v == 5) 99, .record 60]
      else [.record c],
    forwarded := id }

/-- The world after `signal()` at 0 and `connect` of the callables 1, 2, 3, kept in
`conns[0]`, `conns[1]`, `conns[2]`. -/
def world_123 : World Nat :=
  (main env_ex 1 0 (.construct 0 :: connects 0 0 [1, 2, 3])).world

/-- The world after `signal()` at 0 and `connect` of the callables 1, 4, 3. -/
def world_143 : World Nat :=
  (main env_ex 1 0 (.construct 0 :: connects 0 0 [1, 4, 3])).world

/-- The world after `signal()` at 0 and `connect` of the callables 1, 6, 3. -/
def world_163 : World Nat :=
  (main env_ex 1 0 (.construct 0 :: connects 0 0 [1, 6, 3])).world

/-- The world after `signal()` at 0, `connect` of callable 1 kept in `conns[0]`, and the
destruction of the signal. -/
def world_gone : World Nat :=
  (main env_int 1 0 [.construct 0, .connect 0 0 (some 1), .destroy 0]).world

/-- Example environment for `Args = std::unique_ptr<int>` passed by value (`none` is the null
pointer, `some v` owns `v`): callable `c` records under tag `c`, and the pack that was moved
into the parameter of a call is left null. -/
def env_ptr : Env (Option Nat) := { code := fun c => [.record c], forwarded := fun _ => none }

/-! ## Programs on one registry, and what they keep true -/

/-- The statements of client code that works on the one registry `s` by `connect`, `disconnect`,
moves of connections and `emit` (besides `record` and `raise`); no registry is constructed,
copied or destroyed. With `nonempty` set, `connect` is only given non-empty functions. -/
def Stmt.allowed (s : Nat) (nonempty : Bool) : Stmt α → Bool
  | .record _ => true
  | .connect r _ f => r == s && (!nonempty || f.isSome)
  | .disconnect _ => true
  | .move _ _ => true
  | .emit r _ => r == s
  | .raise _ _ => true
  | _ => false

/-- The registry `s` is live with flag `d` reading false, `k` emissions are in progress, and
(with `nonempty` set) when none is in progress no slot is empty. -/
def Inv (s d : Nat) (nonempty : Bool) (k : Nat) (w : World α) : Prop :=
  ∃ sg : signal, w.sigs s = some sg ∧ sg.inside_emit = k ∧ sg.destroyed = d ∧
    w.flags d = false ∧ (nonempty = true → k = 0 → ∀ n ∈ sg.slots, n.slot ≠ none)

/-- The property `P` of the world in which a run ended by return or by exception. -/
def Res.holds {σ : Type} (P : σ → Prop) : Res σ → Prop
  | .ok w => P w
  | .thrown _ w => P w
  | _ => True

/-- The property `P` of the world in which the loop ended at `end()` or by exception, the loop
not having ended by the `return` of line 105. -/
def LoopRes.holds {σ : Type} (P : σ → Prop) : LoopRes σ → Prop
  | .finished w => P w
  | .thrown _ w => P w
  | .returned _ => False
  | _ => True

/-- The world in which the loop ended (the empty heap after a fault). -/
def LoopRes.world : LoopRes (World α) → World α
  | .finished w => w
  | .returned w => w
  | .thrown _ w => w
  | _ => World.init

/-- The loop of `R(5)` on `world_123`, where callable 2 disconnects its own connection. -/
def loop_123 : LoopRes (World Nat) :=
  signal.emit_loop (fun c a w1 => run (emit env_ex 4) a (env_ex.code c) w1) env_ex.forwarded
    0 0 4 (slots_begin [⟨1, some 1⟩, ⟨2, some 2⟩, ⟨3, some 3⟩]) 5
    (world_123.setSig 0 (some { slots := [⟨1, some 1⟩, ⟨2, some 2⟩, ⟨3, some 3⟩],
                                inside_emit := (0 + 1) % SIZE_MOD, destroyed := 0 }))

/-- The run ended in undefined behaviour. -/
def Res.isUndefined {σ : Type} : Res σ → Bool
  | .undefined => true
  | _ => false

/-- Example environment over `int` arguments: callable 5 records, disconnects the connection
`conns[1]`, calls `sigs[0](7)` and records again; callable 8 records and destroys the signal at
0; callable 9 records, destroys the signal at 0 and throws 1; every other callable `c` records
under tag `c`. -/
def env_nest : Env Nat :=
  { code := fun c =>
      if c = 5 then [.record 5, .disconnect 1, .emit 0 7, .record 50]
      else if c = 8 then [.record 8, .destroy 0]
      else if c = 9 then [.record 9, .destroy 0, .raise (fun _ => true) 1]
      else [.record c],
    forwarded := id }

/-- The world after `signal()` at 0 and `connect` of the callables 1, 8, 3. -/
def world_183 : World Nat :=
  (main env_nest 1 0 (.construct 0 :: connects 0 0 [1, 8, 3])).world

/-- The world in which callable 8 returns when `R(5)` is called on `world_183`. -/
def world_183_called : World Nat :=
  (run (emit env_nest 3) (pass_arg env_nest (fns [⟨1, some 1⟩]) 5) (env_nest.code 8)
    ((world_183.setSig 0 (some { slots := [⟨1, some 1⟩, ⟨2, some 8⟩, ⟨3, some 3⟩],
                                 inside_emit := (0 + 1) % SIZE_MOD, destroyed := 0 })).addLog
      (pass_log env_nest (fns [⟨1, some 1⟩]) 5))).world

/-- The world after `signal()` at 0 and `connect` of the callables 1, 9, 3. -/
def world_193 : World Nat :=
  (main env_nest 1 0 (.construct 0 :: connects 0 0 [1, 9, 3])).world

/-- The world after `signal()` at 0, `connect` of an empty function kept in `conns[0]`, and
`R(5)`. -/
def world_stale : World Nat :=
  (main env_int 3 0 [.construct 0, .connect 0 0 none, .emit 0 5]).world

/-- Example environment over `int` arguments: callable 5 records, disconnects the connection
`conns[2]` (that of another slot), calls `sigs[0](7)` if it received 5, and records again;
every other callable `c` records under tag `c`. -/
def env_cond : Env Nat :=
  { code := fun c =>
      if c = 5 then [.record 5, .disconnect 2, .emit_if (fun v => v == 5) 0 7, .record 50]
      else [.record c],
    forwarded := id }

/-- The world after `signal()` at 0 and `connect` of the callables 1, 5, 3, 4, kept in
`conns[0]` to `conns[3]`. -/
def world_1534 : World Nat :=
  (main env_cond 1 0 (.construct 0 :: connects 0 0 [1, 5, 3, 4])).world

/-- Example environment over `int` arguments: callable 2 records, disconnects its own
connection `conns[1]` and then records again; every other callable `c` records under tag `c`. -/
def env_self : Env Nat :=
  { code := fun c => if c = 2 then [.record 2, .disconnect 1, .record 20] else [.record c],
    forwarded := id }

/-- The world in which the loop of `R(5)` on `world_123` calls the function of node 2: one
emission is in progress and callable 1 has recorded. -/
def world_123_at_2 : World Nat :=
  (world_123.setSig 0 (some { slots := [⟨1, some 1⟩, ⟨2, some 2⟩, ⟨3, some 3⟩],
                              inside_emit := (0 + 1) % SIZE_MOD, destroyed := 0 })).addLog
    [(1, 5)]

end signals

namespace signals

variable {α : Type}

/-! ## Basic facts about the heap -/

theorem World.addLog_nil (w : World α) : w.addLog [] = w := by
  cases w; simp [World.addLog]

theorem World.addLog_addLog (w : World α) (l1 l2 : List (Nat × α)) :
    (w.addLog l1).addLog l2 = w.addLog (l1 ++ l2) := by
  simp [World.addLog, List.append_assoc]

theorem World.setSig_setSig (w : World α) (s : Nat) (u v : Option signal) :
    (w.setSig s u).setSig s v = w.setSig s v := by
  simp only [World.setSig]
  congr 1
  funext k
  by_cases h : k = s <;> simp [h]

theorem World.setSig_same (w : World α) (s : Nat) (v : Option signal) :
    (w.setSig s v).sigs s = v := by
  simp [World.setSig]

theorem World.setSig_other (w : World α) (s k : Nat) (v : Option signal) (h : k ≠ s) :
    (w.setSig s v).sigs k = w.sigs k := by
  simp [World.setSig, h]

/-! ## disconnect -/

/-- A connection without a signal is inert: `disconnect` changes nothing. -/
theorem disconnect_detached (c : connection) (w : World α) (h : c.sig = none) :
    c.disconnect w = some (c, w) := by
  simp [connection.disconnect, h]

/-- The guard `!*destroyed` fails: `disconnect` changes nothing. -/
theorem disconnect_destroyed (c : connection) (w : World α) (s d : Nat)
    (hs : c.sig = some s) (hd : c.destroyed = some d) (hf : w.flags d = true) :
    c.disconnect w = some (c, w) := by
  simp [connection.disconnect, hs, hd, hf]

/-- After a successful `disconnect` the connection is detached or its flag reads destroyed. -/
theorem disconnect_result (c c1 : connection) (w w1 : World α)
    (h : c.disconnect w = some (c1, w1)) : c1.disconnect w1 = some (c1, w1) := by
  unfold connection.disconnect at h
  cases hs : c.sig with
  | none =>
    simp only [hs] at h
    cases h
    exact disconnect_detached c w hs
  | some s =>
    cases hd : c.destroyed with
    | none => simp [hs, hd] at h
    | some d =>
      simp only [hs, hd] at h
      by_cases hf : w.flags d = true
      · simp only [hf, if_true] at h
        cases h
        exact disconnect_destroyed c w s d hs hd hf
      · simp only [hf] at h
        cases hg : w.sigs s with
        | none => simp [hg] at h
        | some sg =>
          cases hi : c.it with
          | none => simp [hg, hi] at h
          | some i =>
            cases hn : slots_deref sg.slots i with
            | none => simp [hg, hi, hn] at h
            | some nd =>
              simp only [hg, hi, hn] at h
              simp only [Bool.false_eq_true, if_false, Option.some.injEq, Prod.mk.injEq] at h
              obtain ⟨h1, _⟩ := h
              apply disconnect_detached
              rw [← h1]

/-! ## std::list primitives at a known position -/

theorem slots_deref_at (pre : slots_t) (nd : Node) (tl : slots_t) (h : nd.id ∉ ids pre) :
    slots_deref (pre ++ nd :: tl) nd.id = some nd := by
  induction pre with
  | nil => simp [slots_deref]
  | cons p pre ih =>
    simp only [ids, List.map_cons, List.mem_cons, not_or] at h
    have hne : p.id ≠ nd.id := fun e => h.1 e.symm
    simp only [List.cons_append, slots_deref, hne, if_false]
    exact ih h.2

theorem slots_next_at (pre : slots_t) (nd : Node) (tl : slots_t) (h : nd.id ∉ ids pre) :
    slots_next (pre ++ nd :: tl) nd.id = some (slots_begin tl) := by
  induction pre with
  | nil => simp [slots_next]
  | cons p pre ih =>
    simp only [ids, List.map_cons, List.mem_cons, not_or] at h
    have hne : p.id ≠ nd.id := fun e => h.1 e.symm
    simp only [List.cons_append, slots_next, hne, if_false]
    exact ih h.2

theorem slots_erase_at (pre : slots_t) (nd : Node) (tl : slots_t) (h : nd.id ∉ ids pre) :
    slots_erase (pre ++ nd :: tl) nd.id = pre ++ tl := by
  induction pre with
  | nil => simp [slots_erase]
  | cons p pre ih =>
    simp only [ids, List.map_cons, List.mem_cons, not_or] at h
    have hne : p.id ≠ nd.id := fun e => h.1 e.symm
    simp only [List.cons_append, slots_erase, hne, if_false]
    exact congrArg _ (ih h.2)

theorem slots_clear_at (pre : slots_t) (nd : Node) (tl : slots_t) (h : nd.id ∉ ids pre) :
    slots_clear (pre ++ nd :: tl) nd.id = pre ++ { nd with slot := none } :: tl := by
  induction pre with
  | nil => simp [slots_clear]
  | cons p pre ih =>
    simp only [ids, List.map_cons, List.mem_cons, not_or] at h
    have hne : p.id ≠ nd.id := fun e => h.1 e.symm
    simp only [List.cons_append, slots_clear, hne, if_false]
    exact congrArg _ (ih h.2)

/-- In a list with pairwise distinct node addresses, a node is not among those before it. -/
theorem nodup_not_mem (pre : slots_t) (nd : Node) (tl : slots_t)
    (h : (ids (pre ++ nd :: tl)).Nodup) : nd.id ∉ ids pre := by
  simp only [ids, List.map_append, List.map_cons] at h
  have h2 := (List.nodup_append.mp h).2.2
  intro hm
  exact h2 hm (List.mem_cons_self _ _)

theorem compact_eq_filter (l : slots_t) : compact l = l.filter (fun n => n.slot.isSome) := by
  induction l with
  | nil => rfl
  | cons n t ih =>
    by_cases h : n.slot.isSome = true <;> simp [compact, List.filter_cons, h, ih]

theorem compact_append (l1 l2 : slots_t) : compact (l1 ++ l2) = compact l1 ++ compact l2 := by
  simp [compact_eq_filter]

theorem compact_idem (l : slots_t) : compact (compact l) = compact l := by
  simp [compact_eq_filter]

theorem compact_no_empty (l : slots_t) : ∀ n ∈ compact l, n.slot ≠ none := by
  intro n hn
  rw [compact_eq_filter, List.mem_filter] at hn
  intro h
  simp [h] at hn

theorem compact_nodup (l : slots_t) (h : (ids l).Nodup) : (ids (compact l)).Nodup := by
  rw [compact_eq_filter]
  exact (List.Nodup.sublist ((List.filter_sublist l).map Node.id) h)

/-! ## Passes over recording callables -/

theorem pass_log_append (env : Env α) (l1 l2 : List slot_t) (a : α) :
    pass_log env (l1 ++ l2) a = pass_log env l1 a ++ pass_log env l2 (pass_arg env l1 a) := by
  induction l1 generalizing a with
  | nil => simp [pass_log, pass_arg]
  | cons f t ih =>
    cases f with
    | none => simp [pass_log, pass_arg, ih]
    | some c => simp [pass_log, pass_arg, ih, List.append_assoc]

theorem pass_arg_append (env : Env α) (l1 l2 : List slot_t) (a : α) :
    pass_arg env (l1 ++ l2) a = pass_arg env l2 (pass_arg env l1 a) := by
  induction l1 generalizing a with
  | nil => simp [pass_arg]
  | cons f t ih =>
    cases f with
    | none => simp [pass_arg, ih]
    | some c => simp [pass_arg, ih]

theorem pass_log_compact (env : Env α) (l : slots_t) (a : α) :
    pass_log env (fns (compact l)) a = pass_log env (fns l) a := by
  induction l generalizing a with
  | nil => rfl
  | cons n t ih =>
    cases hn : n.slot with
    | none => simp [compact, fns, hn, pass_log] at *; exact ih a
    | some c => simp [compact, fns, hn, pass_log] at *; exact ih _

theorem Passive.append_left {env : Env α} {l1 l2 : List slot_t} (h : Passive env (l1 ++ l2)) :
    Passive env l1 := fun c hc => h c (List.mem_append_left _ hc)

theorem Passive.append_right {env : Env α} {l1 l2 : List slot_t} (h : Passive env (l1 ++ l2)) :
    Passive env l2 := fun c hc => h c (List.mem_append_right _ hc)

theorem Passive.tail {env : Env α} {f : slot_t} {l : List slot_t} (h : Passive env (f :: l)) :
    Passive env l := fun c hc => h c (List.mem_cons_of_mem _ hc)

theorem Passive.compact {env : Env α} {l : slots_t} (h : Passive env (fns l)) :
    Passive env (fns (compact l)) := by
  intro c hc
  apply h c
  simp only [fns, List.mem_map] at *
  obtain ⟨n, hn, e⟩ := hc
  rw [compact_eq_filter] at hn
  exact ⟨n, (List.mem_filter.mp hn).1, e⟩

/-- A body that only records returns normally and only extends the log. -/
theorem run_records (emitF : Nat → α → World α → Res (World α)) (a : α)
    (body : List (Stmt α)) (w : World α) (h : body.all Stmt.isRecord = true) :
    run emitF a body w = .ok (w.addLog (records body a)) := by
  induction body generalizing w with
  | nil => simp [run, records, World.addLog_nil]
  | cons st rest ih =>
    rw [List.all_cons, Bool.and_eq_true] at h
    obtain ⟨h1, h2⟩ := h
    cases st <;> simp only [Stmt.isRecord] at h1 <;> try contradiction
    simp only [run, exec, records]
    rw [ih _ h2, World.addLog_addLog]
    rfl

/-! ## One iteration of the loop of `operator()` -/

theorem emit_loop_end (call : Nat → α → World α → Res (World α)) (fwd : α → α) (s ld n : Nat)
    (a : α) (w : World α) :
    signal.emit_loop call fwd s ld (n + 1) none a w = .finished w := by
  simp [signal.emit_loop]

theorem emit_loop_skip (call : Nat → α → World α → Res (World α)) (fwd : α → α) (s ld n i : Nat)
    (a : α) (w : World α) (sg : signal) (nd : Node) (j : Option Nat)
    (hs : w.sigs s = some sg) (hd : slots_deref sg.slots i = some nd) (he : nd.slot = none)
    (hn : slots_next sg.slots i = some j) :
    signal.emit_loop call fwd s ld (n + 1) (some i) a w = signal.emit_loop call fwd s ld n j a w := by
  simp [signal.emit_loop, hs, hd, he, hn]

theorem emit_loop_call (call : Nat → α → World α → Res (World α)) (fwd : α → α) (s ld n i : Nat)
    (a : α) (w w1 : World α) (sg sg1 : signal) (nd : Node) (c : Nat) (j : Option Nat)
    (hs : w.sigs s = some sg) (hd : slots_deref sg.slots i = some nd) (hc : nd.slot = some c)
    (hr : call c a w = .ok w1) (hf : w1.flags ld = false) (hs1 : w1.sigs s = some sg1)
    (hn : slots_next sg1.slots i = some j) :
    signal.emit_loop call fwd s ld (n + 1) (some i) a w
      = signal.emit_loop call fwd s ld n j (fwd a) w1 := by
  simp [signal.emit_loop, hs, hd, hc, hr, hf, hs1, hn]

theorem emit_loop_throw (call : Nat → α → World α → Res (World α)) (fwd : α → α) (s ld n i : Nat)
    (a : α) (w w1 : World α) (sg : signal) (nd : Node) (c e : Nat)
    (hs : w.sigs s = some sg) (hd : slots_deref sg.slots i = some nd) (hc : nd.slot = some c)
    (hr : call c a w = .thrown e w1) :
    signal.emit_loop call fwd s ld (n + 1) (some i) a w = .thrown e w1 := by
  simp [signal.emit_loop, hs, hd, hc, hr]

/-- The loop walks over a stretch `pas` of recording callables: each non-empty slot is called
once, front to back, and the loop arrives at the node after the stretch. -/
theorem emit_loop_passive (env : Env α) (emitF : Nat → α → World α → Res (World α))
    (s ld : Nat) (pas : slots_t) :
    ∀ (before rest : slots_t) (m : Nat) (a : α) (w : World α) (sg : signal),
      w.sigs s = some sg → sg.slots = before ++ (pas ++ rest) → (ids sg.slots).Nodup →
      Passive env (fns pas) → w.flags ld = false →
      signal.emit_loop (fun c a w1 => run emitF a (env.code c) w1) env.forwarded s ld
          (pas.length + m) (slots_begin (pas ++ rest)) a w
        = signal.emit_loop (fun c a w1 => run emitF a (env.code c) w1) env.forwarded s ld m
          (slots_begin rest) (pass_arg env (fns pas) a) (w.addLog (pass_log env (fns pas) a)) := by
  induction pas with
  | nil =>
    intro before rest m a w sg _ _ _ _ _
    simp [fns, pass_arg, pass_log, World.addLog_nil]
  | cons nd pas ih =>
    intro before rest m a w sg hs hsl hnd hp hf
    have hfuel : (nd :: pas).length + m = (pas.length + m) + 1 := by
      simp only [List.length_cons]; omega
    have hsl2 : sg.slots = (before ++ [nd]) ++ (pas ++ rest) := by
      rw [hsl]; simp
    have hsl1 : sg.slots = before ++ nd :: (pas ++ rest) := by
      rw [hsl]; simp
    have hnot : nd.id ∉ ids before := by
      apply nodup_not_mem before nd (pas ++ rest)
      rw [← hsl1]; exact hnd
    have hderef : slots_deref sg.slots nd.id = some nd := by
      rw [hsl1]; exact slots_deref_at _ _ _ hnot
    have hnext : slots_next sg.slots nd.id = some (slots_begin (pas ++ rest)) := by
      rw [hsl1]; exact slots_next_at _ _ _ hnot
    have hbegin : slots_begin (nd :: pas ++ rest) = some nd.id := by
      simp [slots_begin]
    rw [hfuel, hbegin]
    cases hslot : nd.slot with
    | none =>
      rw [emit_loop_skip _ _ s ld _ nd.id a w sg nd _ hs hderef hslot hnext]
      have hp2 : Passive env (fns pas) := by
        intro c hc
        apply hp c
        simp only [fns, List.map_cons, List.mem_cons] at *
        exact Or.inr hc
      rw [ih (before ++ [nd]) rest m a w sg hs hsl2 hnd hp2 hf]
      simp [fns, hslot, pass_arg, pass_log]
    | some c =>
      have hpc : (env.code c).all Stmt.isRecord = true := by
        apply hp c
        simp [fns, hslot]
      have hp2 : Passive env (fns pas) := by
        intro c2 hc
        apply hp c2
        simp only [fns, List.map_cons, List.mem_cons] at *
        exact Or.inr hc
      rw [emit_loop_call _ _ s ld _ nd.id a w (w.addLog (records (env.code c) a)) sg sg nd c _
        hs hderef hslot (run_records emitF a _ w hpc) hf hs hnext]
      rw [ih (before ++ [nd]) rest m (env.forwarded a) (w.addLog (records (env.code c) a)) sg
        hs hsl2 hnd hp2 hf]
      simp [fns, hslot, pass_arg, pass_log, World.addLog_addLog]

/-! ## size_t arithmetic of `inside_emit` -/

theorem size_dec_inc (k : Nat) (h : k < SIZE_MOD) :
    ((k + 1) % SIZE_MOD + SIZE_MOD - 1) % SIZE_MOD = k := by
  simp only [SIZE_MOD] at *
  norm_num at *
  omega

theorem size_inc_ne_zero (k : Nat) (h : k + 1 < SIZE_MOD) : (k + 1) % SIZE_MOD ≠ 0 := by
  simp only [SIZE_MOD] at *
  norm_num at *
  omega

/-! ## `operator()` and `leave_emit` -/

theorem World.addLog_setSig (w : World α) (l : List (Nat × α)) (s : Nat) (v : Option signal) :
    (w.setSig s v).addLog l = (w.addLog l).setSig s v := rfl

/-- The function `leave_emit` on a signal whose counter was incremented from `k`. -/
theorem leave_emit_after_inc (s : Nat) (w : World α) (sl : slots_t) (k d : Nat)
    (hk : k < SIZE_MOD)
    (hs : w.sigs s = some { slots := sl, inside_emit := (k + 1) % SIZE_MOD, destroyed := d }) :
    signal.leave_emit s w = some (w.setSig s (some
      { slots := if k = 0 then compact sl else sl, inside_emit := k, destroyed := d })) := by
  simp only [signal.leave_emit, hs, size_dec_inc k hk]
  by_cases h0 : k = 0 <;> simp [h0]

theorem emit_with_finished (call : Nat → α → World α → Res (World α)) (fwd : α → α)
    (n s : Nat) (x : α) (w w2 : World α) (sg : signal) (hs : w.sigs s = some sg)
    (hl : signal.emit_loop call fwd s sg.destroyed n (slots_begin sg.slots) x
      (w.setSig s (some { sg with inside_emit := (sg.inside_emit + 1) % SIZE_MOD }))
        = .finished w2) :
    signal.emit_with call fwd n s x w =
      match signal.leave_emit s w2 with
      | none => .undefined
      | some w3 => .ok w3 := by
  simp only [signal.emit_with, hs, hl]

theorem emit_with_thrown (call : Nat → α → World α → Res (World α)) (fwd : α → α)
    (n s e : Nat) (x : α) (w w2 : World α) (sg : signal) (hs : w.sigs s = some sg)
    (hl : signal.emit_loop call fwd s sg.destroyed n (slots_begin sg.slots) x
      (w.setSig s (some { sg with inside_emit := (sg.inside_emit + 1) % SIZE_MOD }))
        = .thrown e w2) :
    signal.emit_with call fwd n s x w =
      match signal.leave_emit s w2 with
      | none => .undefined
      | some w3 => .thrown e w3 := by
  simp only [signal.emit_with, hs, hl]

/-- The state of signal `s` after an emission that started at depth `sg.inside_emit` and
ended with the slot list `sl`. -/
theorem emit_unfold (env : Env α) (n s : Nat) (x : α) (w : World α) :
    emit env (n + 1) s x w
      = signal.emit_with (fun c a w1 => run (emit env n) a (env.code c) w1) env.forwarded n s x w :=
  rfl

/-- An emission over recording callables: every non-empty slot is called once in list order,
the counter is restored, and the list is compacted when the emission is the outermost one. -/
theorem emit_passive (env : Env α) (fuel s : Nat) (x : α) (w : World α) (sg : signal)
    (hs : w.sigs s = some sg) (hnd : (ids sg.slots).Nodup) (hp : Passive env (fns sg.slots))
    (hf : w.flags sg.destroyed = false) (hk : sg.inside_emit < SIZE_MOD)
    (hfuel : sg.slots.length + 2 ≤ fuel) :
    emit env fuel s x w = .ok ((w.addLog (pass_log env (fns sg.slots) x)).setSig s
      (some { sg with slots := if sg.inside_emit = 0 then compact sg.slots else sg.slots })) := by
  obtain ⟨n, rfl⟩ : ∃ n, fuel = n + 1 := ⟨fuel - 1, by omega⟩
  obtain ⟨m, hm⟩ : ∃ m, n = sg.slots.length + (m + 1) := ⟨n - sg.slots.length - 1, by omega⟩
  rw [emit_unfold]
  have hloop := emit_loop_passive env (emit env n) s sg.destroyed sg.slots [] [] (m + 1) x
    (w.setSig s (some { sg with inside_emit := (sg.inside_emit + 1) % SIZE_MOD }))
    { sg with inside_emit := (sg.inside_emit + 1) % SIZE_MOD }
    (World.setSig_same _ _ _) (by simp) hnd hp hf
  rw [List.append_nil, ← hm] at hloop
  have hend : slots_begin ([] : slots_t) = none := rfl
  rw [hend, emit_loop_end] at hloop
  rw [emit_with_finished _ _ n s x w _ sg hs hloop]
  rw [World.addLog_setSig,
    leave_emit_after_inc s _ sg.slots sg.inside_emit sg.destroyed hk (World.setSig_same _ _ _)]
  simp only [World.setSig_setSig]

/-! ## connect -/

/-- The statement `conns[h] = sigs[s].connect(f)` when `conns[h]` is not connected. -/
theorem exec_connect_detached (emitF : Nat → α → World α → Res (World α)) (a : α)
    (s h : Nat) (f : slot_t) (w : World α) (sg : signal)
    (hs : w.sigs s = some sg) (hh : (w.conns h).sig = none) :
    exec emitF a (.connect s h f) w = .ok
      (({ w.setSig s (some { sg with slots := sg.slots ++ [{ id := w.fresh, slot := f }] }) with
          fresh := w.fresh + 1 } : World α).setConn h
        { sig := some s, destroyed := some sg.destroyed, it := some w.fresh }) := by
  simp [exec, signal.connect, hs, connection.ctor, World.setSig, connection.move_assign,
    connection.disconnect, hh, connection.dtor, World.setConn]

theorem records_tags (body : List (Stmt α)) (a : α) :
    (records body a).map Prod.fst = tags body := by
  induction body with
  | nil => rfl
  | cons st rest ih => cases st <;> simp [records, tags, ih]

theorem pass_log_tags (env : Env α) (cs : List Nat) (a : α) :
    (pass_log env (cs.map some) a).map Prod.fst = (cs.map (fun c => tags (env.code c))).flatten := by
  induction cs generalizing a with
  | nil => rfl
  | cons c cs ih => simp [pass_log, records_tags, ih]

theorem run_connects (emitF : Nat → α → World α → Res (World α)) (a : α) (s : Nat)
    (rest : List (Stmt α)) :
    ∀ (cs : List Nat) (h0 : Nat) (w : World α) (sg : signal),
      w.sigs s = some sg → (∀ h, h0 ≤ h → (w.conns h).sig = none) →
      (∀ i ∈ ids sg.slots, i < w.fresh) → (ids sg.slots).Nodup →
      ∃ (w1 : World α) (sl : slots_t),
        run emitF a (connects s h0 cs ++ rest) w = run emitF a rest w1 ∧
        w1.sigs s = some { sg with slots := sl } ∧ fns sl = fns sg.slots ++ cs.map some ∧
        (ids sl).Nodup ∧ (∀ i ∈ ids sl, i < w1.fresh) ∧ w1.flags = w.flags ∧ w1.log = w.log := by
  intro cs
  induction cs with
  | nil =>
    intro h0 w sg hs _ hlt hnd
    exact ⟨w, sg.slots, by simp [connects], by simp [hs], by simp, hnd, hlt, rfl, rfl⟩
  | cons c cs ih =>
    intro h0 w sg hs hh hlt hnd
    have hstep := exec_connect_detached emitF a s h0 (some c) w sg hs (hh h0 (le_refl _))
    obtain ⟨w1, sl, h1, h2, h3, h4, h5, h6, h7⟩ := ih (h0 + 1)
      (({ w.setSig s (some { sg with slots := sg.slots ++ [{ id := w.fresh, slot := some c }] }) with
          fresh := w.fresh + 1 } : World α).setConn h0
        { sig := some s, destroyed := some sg.destroyed, it := some w.fresh })
      { sg with slots := sg.slots ++ [{ id := w.fresh, slot := some c }] }
      (by simp [World.setConn, World.setSig])
      (by
        intro h hle
        have hne : h ≠ h0 := by omega
        simp only [World.setConn, World.setSig, hne, if_false]
        exact hh h (by omega))
      (by
        intro i hi
        simp only [ids, List.map_append, List.mem_append, List.map_cons, List.map_nil,
          List.mem_singleton] at hi
        simp only [World.setConn, World.setSig]
        rcases hi with hi | hi
        · exact Nat.lt_succ_of_lt (hlt i hi)
        · omega)
      (by
        simp only [ids, List.map_append, List.map_cons, List.map_nil]
        apply List.Nodup.append hnd (List.nodup_singleton _)
        intro i hi1 hi2
        simp only [List.mem_singleton] at hi2
        have := hlt i hi1
        omega)
    refine ⟨w1, sl, ?_, h2, ?_, h4, h5, ?_, ?_⟩
    · simp only [connects, List.cons_append, run, hstep]
      exact h1
    · rw [h3]; simp [fns]
    · rw [h6]; rfl
    · rw [h7]; rfl

/-! ## Repeated emissions and disconnect outside an emission -/

/-- Any number of emissions over recording callables: each one calls every non-empty slot
once, in list order. -/
theorem run_emits_passive (env : Env α) (fuel s : Nat) (a : α) :
    ∀ (ys : List α) (w : World α) (sg : signal),
      w.sigs s = some sg → (ids sg.slots).Nodup → Passive env (fns sg.slots) →
      w.flags sg.destroyed = false → sg.inside_emit < SIZE_MOD → sg.slots.length + 2 ≤ fuel →
      ∃ w1 : World α, run (emit env fuel) a (ys.map (.emit s)) w = .ok w1 ∧
        w1.log = w.log ++ (ys.map (pass_log env (fns sg.slots))).flatten ∧
        w1.conns = w.conns ∧ w1.flags = w.flags := by
  intro ys
  induction ys with
  | nil =>
    intro w sg _ _ _ _ _ _
    exact ⟨w, rfl, by simp, rfl, rfl⟩
  | cons y ys ih =>
    intro w sg hs hnd hp hf hk hfuel
    have hemit := emit_passive env fuel s y w sg hs hnd hp hf hk hfuel
    have hlen : (compact sg.slots).length ≤ sg.slots.length := by
      rw [compact_eq_filter]; exact List.length_filter_le _ _
    obtain ⟨w1, h1, h2, h3, h4⟩ := ih
      ((w.addLog (pass_log env (fns sg.slots) y)).setSig s
        (some { sg with slots := if sg.inside_emit = 0 then compact sg.slots else sg.slots }))
      { sg with slots := if sg.inside_emit = 0 then compact sg.slots else sg.slots }
      (World.setSig_same _ _ _)
      (by
        by_cases h0 : sg.inside_emit = 0
        · simp only [h0, if_true]; exact compact_nodup _ hnd
        · simp only [h0, if_false]; exact hnd)
      (by
        by_cases h0 : sg.inside_emit = 0
        · simp only [h0, if_true]; exact hp.compact
        · simp only [h0, if_false]; exact hp)
      hf hk
      (by
        by_cases h0 : sg.inside_emit = 0
        · simp only [h0, if_true]; omega
        · simp only [h0, if_false]; exact hfuel)
    refine ⟨w1, ?_, ?_, ?_, ?_⟩
    · simp only [List.map_cons, run, exec, hemit]
      exact h1
    · rw [h2]
      have hpl : pass_log env (fns (if sg.inside_emit = 0 then compact sg.slots else sg.slots))
          = pass_log env (fns sg.slots) := by
        funext z
        by_cases h0 : sg.inside_emit = 0
        · simp only [h0, if_true]; exact pass_log_compact env _ z
        · simp only [h0, if_false]
      simp only [hpl]
      simp [World.addLog, World.setSig, List.append_assoc]
    · rw [h3]; rfl
    · rw [h4]; rfl

/-- The statement `conns[h].disconnect()` for a connection to node `nd` of a live signal that
is not emitting: the node is erased and the connection is detached. -/
theorem exec_disconnect_idle (emitF : Nat → α → World α → Res (World α)) (a : α)
    (s h : Nat) (w : World α) (sg : signal) (pre post : slots_t) (nd : Node)
    (hs : w.sigs s = some sg) (hidle : sg.inside_emit = 0) (hsl : sg.slots = pre ++ nd :: post)
    (hnd : (ids sg.slots).Nodup)
    (hc : w.conns h = { sig := some s, destroyed := some sg.destroyed, it := some nd.id })
    (hf : w.flags sg.destroyed = false) :
    exec emitF a (.disconnect h) w = .ok
      ((w.setSig s (some { sg with slots := pre ++ post })).setConn h
        { sig := none, destroyed := none, it := some nd.id }) := by
  have hnot : nd.id ∉ ids pre := by
    apply nodup_not_mem pre nd post
    rw [← hsl]; exact hnd
  have hderef : slots_deref sg.slots nd.id = some nd := by
    rw [hsl]; exact slots_deref_at _ _ _ hnot
  have herase : slots_erase sg.slots nd.id = pre ++ post := by
    rw [hsl]; exact slots_erase_at _ _ _ hnot
  simp [exec, connection.disconnect, hc, hf, hs, hderef, hidle, herase]

/-! ## Lists with one distinguished node -/

theorem fns_split (pre post : slots_t) (nd : Node) :
    fns (pre ++ nd :: post) = fns pre ++ nd.slot :: fns post := by
  simp [fns]

theorem Passive.insert_none {env : Env α} {l1 l2 : List slot_t} (h : Passive env (l1 ++ l2)) :
    Passive env (l1 ++ none :: l2) := by
  intro c hc
  apply h c
  simp only [List.mem_append, List.mem_cons] at *
  rcases hc with hc | hc | hc
  · exact Or.inl hc
  · cases hc
  · exact Or.inr hc

/-! ## An emission in which one callable is not a recording one -/

theorem records_append (b1 b2 : List (Stmt α)) (a : α) :
    records (b1 ++ b2) a = records b1 a ++ records b2 a := by
  induction b1 with
  | nil => rfl
  | cons st rest ih => cases st <;> simp [records, ih]

/-- A recording stretch at the front of a body. -/
theorem run_records_append (emitF : Nat → α → World α → Res (World α)) (a : α)
    (b1 b2 : List (Stmt α)) (w : World α) (h : b1.all Stmt.isRecord = true) :
    run emitF a (b1 ++ b2) w = run emitF a b2 (w.addLog (records b1 a)) := by
  induction b1 generalizing w with
  | nil => simp [records, World.addLog_nil]
  | cons st rest ih =>
    rw [List.all_cons, Bool.and_eq_true] at h
    obtain ⟨h1, h2⟩ := h
    cases st with
    | record t =>
      simp only [List.cons_append, run, exec, records]
      have e := ih (w.addLog [(t, a)]) h2
      rw [World.addLog_addLog] at e
      exact e
    | _ => simp [Stmt.isRecord] at h1

/-- An emission on signal `s` whose slots are `pre ++ nc :: post`: the callables of `pre` only
record, the callable `c` of `nc` returns normally in world `W1` where the list has become
`pre ++ nc1 :: post1` (same node address), and the callables of `post1` only record. Then the
emission returns after calling `pre`, `c` and `post1` in this order. -/
theorem emit_special (env : Env α) (n s c : Nat) (x : α) (w W1 : World α) (sg sg1 : signal)
    (pre post post1 : slots_t) (nc nc1 : Node)
    (hs : w.sigs s = some sg) (hsl : sg.slots = pre ++ nc :: post) (hnd : (ids sg.slots).Nodup)
    (hc : nc.slot = some c) (hpre : Passive env (fns pre))
    (hf : w.flags sg.destroyed = false) (hk : sg.inside_emit < SIZE_MOD)
    (hcall : run (emit env n) (pass_arg env (fns pre) x) (env.code c)
      ((w.setSig s (some { sg with inside_emit := (sg.inside_emit + 1) % SIZE_MOD })).addLog
        (pass_log env (fns pre) x)) = .ok W1)
    (hf1 : W1.flags sg.destroyed = false)
    (hs1 : W1.sigs s = some sg1) (hsl1 : sg1.slots = pre ++ nc1 :: post1)
    (hid : nc1.id = nc.id) (hnd1 : (ids sg1.slots).Nodup) (hpost : Passive env (fns post1))
    (hk1 : sg1.inside_emit = (sg.inside_emit + 1) % SIZE_MOD) (hd1 : sg1.destroyed = sg.destroyed)
    (hfuel : pre.length + post1.length + 2 ≤ n) :
    emit env (n + 1) s x w = .ok
      ((W1.addLog (pass_log env (fns post1) (env.forwarded (pass_arg env (fns pre) x)))).setSig s
        (some { slots := if sg.inside_emit = 0 then compact sg1.slots else sg1.slots,
                inside_emit := sg.inside_emit, destroyed := sg.destroyed })) := by
  obtain ⟨m, hm⟩ : ∃ m, n = pre.length + ((post1.length + (m + 1)) + 1) :=
    ⟨n - pre.length - post1.length - 2, by omega⟩
  rw [emit_unfold]
  -- the stretch before `nc`
  have hloop1 := emit_loop_passive env (emit env n) s sg.destroyed pre [] (nc :: post)
    ((post1.length + (m + 1)) + 1) x
    (w.setSig s (some { sg with inside_emit := (sg.inside_emit + 1) % SIZE_MOD }))
    { sg with inside_emit := (sg.inside_emit + 1) % SIZE_MOD }
    (World.setSig_same _ _ _) (by simp [hsl]) hnd hpre hf
  -- the call of `c`
  have hnot : nc.id ∉ ids pre := by
    apply nodup_not_mem pre nc post
    rw [← hsl]; exact hnd
  have hnot1 : nc1.id ∉ ids pre := by rw [hid]; exact hnot
  have hstep := emit_loop_call (fun c a w1 => run (emit env n) a (env.code c) w1) env.forwarded
    s sg.destroyed (post1.length + (m + 1)) nc.id (pass_arg env (fns pre) x)
    ((w.setSig s (some { sg with inside_emit := (sg.inside_emit + 1) % SIZE_MOD })).addLog
        (pass_log env (fns pre) x)) W1
    { sg with inside_emit := (sg.inside_emit + 1) % SIZE_MOD } sg1 nc c (slots_begin post1)
    (by simp [World.addLog, World.setSig])
    (by simp only [hsl]; exact slots_deref_at _ _ _ hnot) hc hcall hf1 hs1
    (by rw [hsl1, ← hid]; exact slots_next_at _ _ _ hnot1)
  -- the stretch after `nc`
  have hloop2 := emit_loop_passive env (emit env n) s sg.destroyed post1 (pre ++ [nc1]) []
    (m + 1) (env.forwarded (pass_arg env (fns pre) x)) W1 sg1 hs1 (by simp [hsl1]) hnd1 hpost hf1
  rw [List.append_nil] at hloop2
  have hend : slots_begin ([] : slots_t) = none := rfl
  rw [hend, emit_loop_end] at hloop2
  have hb : slots_begin (nc :: post) = some nc.id := rfl
  rw [hb, hstep, hloop2] at hloop1
  have hb0 : slots_begin sg.slots = slots_begin (pre ++ nc :: post) := by rw [hsl]
  rw [← hm, ← hb0] at hloop1
  rw [emit_with_finished _ _ n s x w _ sg hs hloop1]
  have hs2 : (W1.addLog (pass_log env (fns post1)
      (env.forwarded (pass_arg env (fns pre) x)))).sigs s
      = some { slots := sg1.slots, inside_emit := (sg.inside_emit + 1) % SIZE_MOD,
               destroyed := sg.destroyed } := by
    simp only [World.addLog, hs1, ← hk1, ← hd1]
  rw [leave_emit_after_inc s _ sg1.slots sg.inside_emit sg.destroyed hk hs2]

/-- The lemma `emit_special`, as facts about the final world. -/
theorem emit_special_facts (env : Env α) (n s c : Nat) (x : α) (w W1 : World α) (sg sg1 : signal)
    (pre post post1 : slots_t) (nc nc1 : Node)
    (hs : w.sigs s = some sg) (hsl : sg.slots = pre ++ nc :: post) (hnd : (ids sg.slots).Nodup)
    (hc : nc.slot = some c) (hpre : Passive env (fns pre))
    (hf : w.flags sg.destroyed = false) (hk : sg.inside_emit < SIZE_MOD)
    (hcall : run (emit env n) (pass_arg env (fns pre) x) (env.code c)
      ((w.setSig s (some { sg with inside_emit := (sg.inside_emit + 1) % SIZE_MOD })).addLog
        (pass_log env (fns pre) x)) = .ok W1)
    (hf1 : W1.flags sg.destroyed = false)
    (hs1 : W1.sigs s = some sg1) (hsl1 : sg1.slots = pre ++ nc1 :: post1)
    (hid : nc1.id = nc.id) (hnd1 : (ids sg1.slots).Nodup) (hpost : Passive env (fns post1))
    (hk1 : sg1.inside_emit = (sg.inside_emit + 1) % SIZE_MOD) (hd1 : sg1.destroyed = sg.destroyed)
    (hfuel : pre.length + post1.length + 2 ≤ n) :
    ∃ WF : World α, emit env (n + 1) s x w = .ok WF ∧
      WF.sigs s = some { slots := if sg.inside_emit = 0 then compact sg1.slots else sg1.slots,
                         inside_emit := sg.inside_emit, destroyed := sg.destroyed } ∧
      WF.flags = W1.flags ∧ WF.conns = W1.conns ∧
      WF.log = W1.log ++ pass_log env (fns post1) (env.forwarded (pass_arg env (fns pre) x)) :=
  ⟨_, emit_special env n s c x w W1 sg sg1 pre post post1 nc nc1 hs hsl hnd hc hpre hf hk hcall
      hf1 hs1 hsl1 hid hnd1 hpost hk1 hd1 hfuel,
    World.setSig_same _ _ _, rfl, rfl, rfl⟩

/-- An emission on signal `s` whose slots are `pre ++ nc :: post`: the callables of `pre` only
record and the callable `c` of `nc` throws `e` in world `W1`. Then `leave_emit` runs on `W1`
and the emission throws `e`. -/
theorem emit_throw (env : Env α) (n s c e : Nat) (x : α) (w W1 : World α) (sg sg1 : signal)
    (pre post : slots_t) (nc : Node)
    (hs : w.sigs s = some sg) (hsl : sg.slots = pre ++ nc :: post) (hnd : (ids sg.slots).Nodup)
    (hc : nc.slot = some c) (hpre : Passive env (fns pre))
    (hf : w.flags sg.destroyed = false) (hk : sg.inside_emit < SIZE_MOD)
    (hcall : run (emit env n) (pass_arg env (fns pre) x) (env.code c)
      ((w.setSig s (some { sg with inside_emit := (sg.inside_emit + 1) % SIZE_MOD })).addLog
        (pass_log env (fns pre) x)) = .thrown e W1)
    (hs1 : W1.sigs s = some sg1)
    (hk1 : sg1.inside_emit = (sg.inside_emit + 1) % SIZE_MOD)
    (hfuel : pre.length + 1 ≤ n) :
    emit env (n + 1) s x w = .thrown e
      (W1.setSig s
        (some { slots := if sg.inside_emit = 0 then compact sg1.slots else sg1.slots,
                inside_emit := sg.inside_emit, destroyed := sg1.destroyed })) := by
  obtain ⟨m, hm⟩ : ∃ m, n = pre.length + (m + 1) := ⟨n - pre.length - 1, by omega⟩
  rw [emit_unfold]
  have hloop1 := emit_loop_passive env (emit env n) s sg.destroyed pre [] (nc :: post)
    (m + 1) x
    (w.setSig s (some { sg with inside_emit := (sg.inside_emit + 1) % SIZE_MOD }))
    { sg with inside_emit := (sg.inside_emit + 1) % SIZE_MOD }
    (World.setSig_same _ _ _) (by simp [hsl]) hnd hpre hf
  have hnot : nc.id ∉ ids pre := by
    apply nodup_not_mem pre nc post
    rw [← hsl]; exact hnd
  have hstep := emit_loop_throw (fun c a w1 => run (emit env n) a (env.code c) w1) env.forwarded
    s sg.destroyed m nc.id (pass_arg env (fns pre) x)
    ((w.setSig s (some { sg with inside_emit := (sg.inside_emit + 1) % SIZE_MOD })).addLog
        (pass_log env (fns pre) x)) W1
    { sg with inside_emit := (sg.inside_emit + 1) % SIZE_MOD } nc c e
    (by simp [World.addLog, World.setSig])
    (by simp only [hsl]; exact slots_deref_at _ _ _ hnot) hc hcall
  have hb : slots_begin (nc :: post) = some nc.id := rfl
  rw [hb, hstep] at hloop1
  have hb0 : slots_begin sg.slots = slots_begin (pre ++ nc :: post) := by rw [hsl]
  rw [← hm, ← hb0] at hloop1
  rw [emit_with_thrown _ _ n s e x w _ sg hs hloop1]
  have hs2 : W1.sigs s = some
      { slots := sg1.slots, inside_emit := (sg.inside_emit + 1) % SIZE_MOD,
        destroyed := sg1.destroyed } := by
    rw [hs1, ← hk1]
  rw [leave_emit_after_inc s _ sg1.slots sg.inside_emit sg1.destroyed hk hs2]

/-- A body `b1; raise p e; b2` with recording `b1` throws when `p` holds of the argument. -/
theorem run_raise (emitF : Nat → α → World α → Res (World α)) (a : α) (b1 b2 : List (Stmt α))
    (p : α → Bool) (e : Nat) (w : World α) (hb1 : b1.all Stmt.isRecord = true) (hp : p a = true) :
    run emitF a (b1 ++ .raise p e :: b2) w = .thrown e (w.addLog (records b1 a)) := by
  rw [run_records_append _ _ _ _ _ hb1]
  simp [run, exec, hp]

/-- A body `b1; raise p e; b2` with recording `b1`, `b2` returns when `p` fails of the
argument. -/
theorem run_no_raise (emitF : Nat → α → World α → Res (World α)) (a : α)
    (b1 b2 : List (Stmt α)) (p : α → Bool) (e : Nat) (w : World α)
    (hb1 : b1.all Stmt.isRecord = true) (hb2 : b2.all Stmt.isRecord = true)
    (hp : p a = false) :
    run emitF a (b1 ++ .raise p e :: b2) w
      = .ok (w.addLog (records (b1 ++ .raise p e :: b2) a)) := by
  rw [run_records_append _ _ _ _ _ hb1]
  simp [run, exec, hp, records_append, records, run_records _ _ _ _ hb2, World.addLog_addLog]

/-- An emission in which the callable of `nc` is `b1; raise p e; b2` and does not throw. -/
theorem emit_no_raise (env : Env α) (s c e fuel : Nat) (y : α) (w : World α)
    (sg : signal) (pre post : slots_t) (nc : Node) (b1 b2 : List (Stmt α)) (p : α → Bool)
    (hs : w.sigs s = some sg) (hsl : sg.slots = pre ++ nc :: post) (hnd : (ids sg.slots).Nodup)
    (hc : nc.slot = some c) (hcode : env.code c = b1 ++ .raise p e :: b2)
    (hb1 : b1.all Stmt.isRecord = true) (hb2 : b2.all Stmt.isRecord = true)
    (hpy : p (pass_arg env (fns pre) y) = false)
    (hf : w.flags sg.destroyed = false) (hp : Passive env (fns (pre ++ post)))
    (hk : sg.inside_emit < SIZE_MOD) (hfuel : sg.slots.length + 2 ≤ fuel) :
    ∃ w2 : World α, emit env fuel s y w = .ok w2 ∧
      w2.log = w.log ++ pass_log env (fns sg.slots) y := by
  obtain ⟨n, rfl⟩ : ∃ n, fuel = n + 1 := ⟨fuel - 1, by omega⟩
  have hlen : sg.slots.length = pre.length + post.length + 1 := by
    rw [hsl]; simp only [List.length_append, List.length_cons]; omega
  have hpre : Passive env (fns pre) := by
    have := hp; simp only [fns, List.map_append] at this; exact this.append_left
  have hpost : Passive env (fns post) := by
    have := hp; simp only [fns, List.map_append] at this; exact this.append_right
  have hcall := run_no_raise (emit env n) (pass_arg env (fns pre) y) b1 b2 p e
    ((w.setSig s (some { sg with inside_emit := (sg.inside_emit + 1) % SIZE_MOD })).addLog
        (pass_log env (fns pre) y)) hb1 hb2 hpy
  rw [← hcode] at hcall
  obtain ⟨WF, hemit, _, _, _, hWl⟩ := emit_special_facts env n s c y w _ sg
    { sg with inside_emit := (sg.inside_emit + 1) % SIZE_MOD }
    pre post post nc nc hs hsl hnd hc hpre hf hk hcall
    (by simpa [World.addLog, World.setSig] using hf)
    (by simp [World.addLog, World.setSig]) hsl rfl hnd hpost rfl rfl (by omega)
  refine ⟨WF, hemit, ?_⟩
  rw [hWl]
  simp only [World.addLog, World.setSig, hsl, fns_split, hc, pass_log_append, pass_log,
    List.append_assoc]

theorem pass_arg_compact (env : Env α) (l : slots_t) (a : α) :
    pass_arg env (fns (compact l)) a = pass_arg env (fns l) a := by
  induction l generalizing a with
  | nil => rfl
  | cons n t ih =>
    cases hn : n.slot with
    | none => simp [compact, fns, hn, pass_arg] at *; exact ih a
    | some c => simp [compact, fns, hn, pass_arg] at *; exact ih _

/-- The statement `conns[h].disconnect()` for a connection to node `nd` of a live signal that
is emitting: the function of the node is emptied in place and the connection is detached. -/
theorem exec_disconnect_emitting (emitF : Nat → α → World α → Res (World α)) (a : α)
    (s h : Nat) (w : World α) (sg : signal) (pre post : slots_t) (nd : Node)
    (hs : w.sigs s = some sg) (hbusy : sg.inside_emit ≠ 0) (hsl : sg.slots = pre ++ nd :: post)
    (hnd : (ids sg.slots).Nodup)
    (hc : w.conns h = { sig := some s, destroyed := some sg.destroyed, it := some nd.id })
    (hf : w.flags sg.destroyed = false) :
    exec emitF a (.disconnect h) w = .ok
      ((w.setSig s (some { sg with slots := pre ++ { nd with slot := none } :: post })).setConn h
        { sig := none, destroyed := none, it := some nd.id }) := by
  have hnot : nd.id ∉ ids pre := by
    apply nodup_not_mem pre nd post
    rw [← hsl]; exact hnd
  have hderef : slots_deref sg.slots nd.id = some nd := by
    rw [hsl]; exact slots_deref_at _ _ _ hnot
  have hclear : slots_clear sg.slots nd.id = pre ++ { nd with slot := none } :: post := by
    rw [hsl]; exact slots_clear_at _ _ _ hnot
  simp [exec, connection.disconnect, hc, hf, hs, hderef, hbusy, hclear]

/-! ## Copies of a list -/

theorem fns_slots_copy (b : Nat) (l : slots_t) : fns (slots_copy b l) = fns l := by
  induction l generalizing b with
  | nil => rfl
  | cons n t ih =>
    simp only [slots_copy, fns, List.map_cons] at *
    rw [ih]

theorem ids_slots_copy (b : Nat) (l : slots_t) : ids (slots_copy b l) = List.range' b l.length := by
  induction l generalizing b with
  | nil => rfl
  | cons n t ih =>
    simp only [slots_copy, ids, List.map_cons, List.length_cons, List.range'_succ] at *
    rw [ih]

theorem length_slots_copy (b : Nat) (l : slots_t) : (slots_copy b l).length = l.length := by
  induction l generalizing b with
  | nil => rfl
  | cons n t ih => simp only [slots_copy, List.length_cons, ih]

/-! ## The invariant of programs on one registry -/

theorem mem_slots_erase (l : slots_t) (i : Nat) (n : Node) (h : n ∈ slots_erase l i) : n ∈ l := by
  induction l with
  | nil => simp [slots_erase] at h
  | cons m t ih =>
    by_cases hm : m.id = i
    · simp only [slots_erase, hm, if_true] at h
      exact List.mem_cons_of_mem _ h
    · simp only [slots_erase, hm, if_false, List.mem_cons] at h
      rcases h with h | h
      · rw [h]; exact List.mem_cons_self _ _
      · exact List.mem_cons_of_mem _ (ih h)

theorem Inv.setConn {s d : Nat} {b : Bool} {k : Nat} {w : World α} (h : Inv s d b k w)
    (hh : Nat) (c : connection) : Inv s d b k (w.setConn hh c) := h

theorem Inv.addLog {s d : Nat} {b : Bool} {k : Nat} {w : World α} (h : Inv s d b k w)
    (l : List (Nat × α)) : Inv s d b k (w.addLog l) := h

/-- The member `disconnect` keeps the invariant. -/
theorem disconnect_inv (s d : Nat) (b : Bool) (k : Nat) (c c1 : connection) (w w1 : World α)
    (hi : Inv s d b k w) (h : c.disconnect w = some (c1, w1)) : Inv s d b k w1 := by
  unfold connection.disconnect at h
  cases hs : c.sig with
  | none =>
    simp only [hs] at h
    cases h
    exact hi
  | some r =>
    cases hd : c.destroyed with
    | none => simp [hs, hd] at h
    | some fl =>
      simp only [hs, hd] at h
      by_cases hf : w.flags fl = true
      · simp only [hf, if_true] at h
        cases h
        exact hi
      · simp only [hf] at h
        cases hg : w.sigs r with
        | none => simp [hg] at h
        | some sg =>
          cases hit : c.it with
          | none => simp [hg, hit] at h
          | some i =>
            cases hn : slots_deref sg.slots i with
            | none => simp [hg, hit, hn] at h
            | some nd =>
              simp only [hg, hit, hn] at h
              simp only [Bool.false_eq_true, if_false, Option.some.injEq, Prod.mk.injEq] at h
              obtain ⟨_, h2⟩ := h
              subst h2
              obtain ⟨sg0, e1, e2, e3, e4, e5⟩ := hi
              by_cases hr : r = s
              · subst hr
                rw [hg] at e1
                cases e1
                refine ⟨_, World.setSig_same _ _ _, e2, e3, e4, ?_⟩
                intro hb hk n hn2
                have hk0 : sg.inside_emit = 0 := by rw [e2]; exact hk
                simp only [hk0, ne_eq, not_true_eq_false, if_false] at hn2
                exact e5 hb hk n (mem_slots_erase _ _ _ hn2)
              · refine ⟨sg0, ?_, e2, e3, e4, e5⟩
                rw [World.setSig_other _ _ _ _ (fun e => hr e.symm)]
                exact e1

/-- The member `connect` keeps the invariant (with `nonempty` set: for a non-empty function). -/
theorem connect_inv (s d : Nat) (b : Bool) (k : Nat) (f : slot_t) (c : connection)
    (w w1 : World α) (hf : (!b || f.isSome) = true) (hi : Inv s d b k w)
    (h : signal.connect s f w = some (c, w1)) : Inv s d b k w1 ∧ c.sig.isSome = true := by
  obtain ⟨sg0, e1, e2, e3, e4, e5⟩ := hi
  simp only [signal.connect, e1, connection.ctor, World.setSig, if_true, Option.map_some,
    Option.some.injEq, Prod.mk.injEq] at h
  obtain ⟨rfl, rfl⟩ := h
  refine ⟨⟨{ sg0 with slots := sg0.slots ++ [{ id := w.fresh, slot := f }] }, by simp, e2, e3,
    e4, ?_⟩, rfl⟩
  intro hb hk n hn
  simp only [List.mem_append, List.mem_singleton] at hn
  rcases hn with hn | hn
  · exact e5 hb hk n hn
  · subst hn
    simp only [hb, Bool.not_true, Bool.false_or] at hf
    intro he
    simp only at he
    rw [he] at hf
    simp at hf

/-- A statement of the allowed kind keeps the invariant when emissions do. -/
theorem exec_inv (emitF : Nat → α → World α → Res (World α)) (a : α) (s d : Nat) (b : Bool)
    (k : Nat) (hE : ∀ x w, Inv s d b k w → (emitF s x w).holds (Inv s d b k))
    (st : Stmt α) (w : World α) (hst : st.allowed s b = true) (hi : Inv s d b k w) :
    (exec emitF a st w).holds (Inv s d b k) := by
  cases st with
  | record t => exact hi
  | construct r => simp [Stmt.allowed] at hst
  | copy r1 r2 => simp [Stmt.allowed] at hst
  | destroy r => simp [Stmt.allowed] at hst
  | connect r h f =>
    simp only [Stmt.allowed, Bool.and_eq_true, beq_iff_eq] at hst
    obtain ⟨hr, hf⟩ := hst
    subst hr
    simp only [exec]
    cases hc : signal.connect r f w with
    | none => trivial
    | some p =>
      obtain ⟨tmp, w1⟩ := p
      have hi1 := (connect_inv r d b k f tmp w w1 hf hi hc).1
      simp only [connection.move_assign]
      cases hd : (w1.conns h).disconnect w1 with
      | none => trivial
      | some q =>
        obtain ⟨c1, w2⟩ := q
        have hi2 := disconnect_inv r d b k _ _ _ _ hi1 hd
        simp only [connection.dtor, connection.disconnect, Option.map_some]
        exact hi2
  | disconnect h =>
    simp only [exec]
    cases hd : (w.conns h).disconnect w with
    | none => trivial
    | some q =>
      obtain ⟨c1, w1⟩ := q
      exact Inv.setConn (disconnect_inv s d b k _ _ _ _ hi hd) _ _
  | move h1 h2 =>
    simp only [exec]
    by_cases he : h1 = h2
    · simp only [he, if_true]; exact hi
    · simp only [he, if_false, connection.move_assign]
      cases hd : (w.conns h1).disconnect w with
      | none => trivial
      | some q =>
        obtain ⟨c1, w1⟩ := q
        exact Inv.setConn (Inv.setConn (disconnect_inv s d b k _ _ _ _ hi hd) _ _) _ _
  | emit r x =>
    simp only [Stmt.allowed, beq_iff_eq] at hst
    subst hst
    exact hE x w hi
  | raise p e =>
    simp only [exec]
    by_cases hp : p a = true
    · simp only [hp, if_true]; exact hi
    · simp only [hp]; exact hi
  | emit_if p r x => simp [Stmt.allowed] at hst

/-- A body of allowed statements keeps the invariant when emissions do. -/
theorem run_inv (emitF : Nat → α → World α → Res (World α)) (a : α) (s d : Nat) (b : Bool)
    (k : Nat) (hE : ∀ x w, Inv s d b k w → (emitF s x w).holds (Inv s d b k))
    (body : List (Stmt α)) (hb : body.all (Stmt.allowed s b) = true) :
    ∀ w : World α, Inv s d b k w → (run emitF a body w).holds (Inv s d b k) := by
  induction body with
  | nil => intro w hi; exact hi
  | cons st rest ih =>
    intro w hi
    rw [List.all_cons, Bool.and_eq_true] at hb
    have h1 := exec_inv emitF a s d b k hE st w hb.1 hi
    simp only [run]
    cases he : exec emitF a st w with
    | ok w1 =>
      rw [he] at h1
      exact ih hb.2 w1 h1
    | thrown e w1 =>
      rw [he] at h1
      exact h1
    | undefined => trivial
    | timeout => trivial

/-- The loop of `operator()` keeps the invariant when the callables do, and does not end by
the `return` of line 105. -/
theorem emit_loop_inv (call : Nat → α → World α → Res (World α)) (fwd : α → α) (s d : Nat)
    (b : Bool) (k : Nat)
    (hC : ∀ c a w, Inv s d b k w → (call c a w).holds (Inv s d b k)) :
    ∀ (n : Nat) (i : Option Nat) (a : α) (w : World α), Inv s d b k w →
      (signal.emit_loop call fwd s d n i a w).holds (Inv s d b k) := by
  intro n
  induction n with
  | zero => intro i a w _; trivial
  | succ n ih =>
    intro i a w hi
    cases i with
    | none => rw [emit_loop_end]; exact hi
    | some i =>
      simp only [signal.emit_loop]
      cases hs : w.sigs s with
      | none => trivial
      | some sg =>
        simp only
        cases hd : slots_deref sg.slots i with
        | none => trivial
        | some nd =>
          simp only
          cases hc : nd.slot with
          | none =>
            simp only
            cases hn : slots_next sg.slots i with
            | none => trivial
            | some j => exact ih j a w hi
          | some c =>
            simp only
            have h1 := hC c a w hi
            cases hr : call c a w with
            | ok w1 =>
              rw [hr] at h1
              have h2 : Inv s d b k w1 := h1
              obtain ⟨sg1, e1, _, _, e4, _⟩ := h2
              simp only [e4, Bool.false_eq_true, if_false, e1]
              cases hn : slots_next sg1.slots i with
              | none => trivial
              | some j => exact ih j (fwd a) w1 h1
            | thrown e w1 =>
              rw [hr] at h1
              exact h1
            | undefined => trivial
            | timeout => trivial

theorem size_small_mod (k : Nat) (h : k < SIZE_MOD) : k % SIZE_MOD = k := Nat.mod_eq_of_lt h

/-- The invariant at the start of the loop of an emission that began at depth `k`. -/
theorem Inv.enter {s d : Nat} {b : Bool} {k : Nat} {w : World α} {sg : signal}
    (hs : w.sigs s = some sg) (hi : Inv s d b k w) (hk : k + 1 < SIZE_MOD) :
    Inv s d b (k + 1)
      (w.setSig s (some { sg with inside_emit := (sg.inside_emit + 1) % SIZE_MOD })) := by
  obtain ⟨sg0, e1, e2, e3, e4, _⟩ := hi
  rw [hs] at e1
  cases e1
  refine ⟨_, World.setSig_same _ _ _, ?_, e3, e4, ?_⟩
  · show (sg.inside_emit + 1) % SIZE_MOD = k + 1
    rw [e2, size_small_mod _ hk]
  · intro _ h0
    omega

/-- The function `leave_emit` at depth `k + 1`: the counter goes back to `k`, the list is
compacted when `k = 0` and untouched otherwise. -/
theorem leave_emit_at (s d : Nat) (b : Bool) (k : Nat) (w : World α) (sg : signal)
    (hs : w.sigs s = some sg) (hi : Inv s d b (k + 1) w) (hk : k + 1 < SIZE_MOD) :
    signal.leave_emit s w = some (w.setSig s (some
      { slots := if k = 0 then compact sg.slots else sg.slots, inside_emit := k,
        destroyed := d })) ∧
    Inv s d b k (w.setSig s (some
      { slots := if k = 0 then compact sg.slots else sg.slots, inside_emit := k,
        destroyed := d })) := by
  obtain ⟨sg0, e1, e2, e3, e4, _⟩ := hi
  rw [hs] at e1
  cases e1
  have hs2 : w.sigs s = some
      { slots := sg.slots, inside_emit := (k + 1) % SIZE_MOD, destroyed := d } := by
    rw [hs, size_small_mod _ hk, ← e2, ← e3]
  refine ⟨leave_emit_after_inc s w sg.slots k d (by omega) hs2, ?_⟩
  refine ⟨_, World.setSig_same _ _ _, rfl, rfl, e4, ?_⟩
  intro _ h0 n hn
  simp only [h0, if_true] at hn
  exact compact_no_empty _ n hn

/-- An emission keeps the invariant: it ends at the depth at which it began, on the live
registry, and (with `nonempty` set) leaves no empty slot when it was the outermost one. -/
theorem emit_inv (env : Env α) (s d : Nat) (b : Bool)
    (hcode : ∀ c, (env.code c).all (Stmt.allowed s b) = true) :
    ∀ (fuel k : Nat) (x : α) (w : World α), k + fuel < SIZE_MOD → Inv s d b k w →
      (emit env fuel s x w).holds (Inv s d b k) := by
  intro fuel
  induction fuel with
  | zero => intro k x w _ _; trivial
  | succ n ih =>
    intro k x w hk hi
    rw [emit_unfold]
    obtain ⟨sg, e1, e2, e3, e4, e5⟩ := hi
    subst e3
    have hi : Inv s sg.destroyed b k w := ⟨sg, e1, e2, rfl, e4, e5⟩
    have hin := Inv.enter e1 hi (by omega)
    have hloop := emit_loop_inv (fun c a w1 => run (emit env n) a (env.code c) w1) env.forwarded
      s sg.destroyed b (k + 1)
      (fun c a w1 h1 => run_inv (emit env n) a s sg.destroyed b (k + 1)
        (fun x2 w2 h2 => ih (k + 1) x2 w2 (by omega) h2) (env.code c) (hcode c) w1 h1)
      n (slots_begin sg.slots) x _ hin
    simp only [signal.emit_with, e1]
    cases hl : signal.emit_loop (fun c a w1 => run (emit env n) a (env.code c) w1) env.forwarded
        s sg.destroyed n (slots_begin sg.slots) x
        (w.setSig s (some { sg with inside_emit := (sg.inside_emit + 1) % SIZE_MOD })) with
    | finished w2 =>
      rw [hl] at hloop
      have h2 : Inv s sg.destroyed b (k + 1) w2 := hloop
      obtain ⟨sg2, f1, _⟩ := h2
      obtain ⟨g1, g2⟩ := leave_emit_at s sg.destroyed b k w2 sg2 f1 hloop (by omega)
      simp only [g1]
      exact g2
    | thrown e w2 =>
      rw [hl] at hloop
      have h2 : Inv s sg.destroyed b (k + 1) w2 := hloop
      obtain ⟨sg2, f1, _⟩ := h2
      obtain ⟨g1, g2⟩ := leave_emit_at s sg.destroyed b k w2 sg2 f1 hloop (by omega)
      simp only [g1]
      exact g2
    | returned w2 =>
      rw [hl] at hloop
      exact hloop.elim
    | undefined => trivial
    | timeout => trivial

theorem env_ex_allowed (b : Bool) (c : Nat) : (env_ex.code c).all (Stmt.allowed 0 b) = true := by
  simp only [env_ex]
  split_ifs <;> cases b <;> rfl

theorem connects_allowed (s : Nat) (b : Bool) (cs : List Nat) (h : Nat) :
    (connects (α := α) s h cs).all (Stmt.allowed s b) = true := by
  induction cs generalizing h with
  | nil => rfl
  | cons c cs ih =>
    simp only [connects, List.all_cons, Bool.and_eq_true]
    exact ⟨by cases b <;> simp [Stmt.allowed], ih _⟩

theorem Inv.fresh (s : Nat) (b : Bool) :
    Inv s 0 b 0 (signal.ctor s (World.init : World α)) :=
  ⟨{ slots := [], inside_emit := 0, destroyed := 0 },
    by simp [signal.ctor, World.setSig, World.setFlag, World.init], rfl, rfl,
    by simp [signal.ctor, World.setSig, World.setFlag, World.init],
    by intro _ _ n hn; cases hn⟩

/-! ## The `return` of line 105 -/

theorem emit_loop_return (call : Nat → α → World α → Res (World α)) (fwd : α → α)
    (s ld n i : Nat) (a : α) (w w1 : World α) (sg : signal) (nd : Node) (c : Nat)
    (hs : w.sigs s = some sg) (hd : slots_deref sg.slots i = some nd) (hc : nd.slot = some c)
    (hr : call c a w = .ok w1) (hf : w1.flags ld = true) :
    signal.emit_loop call fwd s ld (n + 1) (some i) a w = .returned w1 := by
  simp [signal.emit_loop, hs, hd, hc, hr, hf]

theorem emit_with_returned (call : Nat → α → World α → Res (World α)) (fwd : α → α)
    (n s : Nat) (x : α) (w w2 : World α) (sg : signal) (hs : w.sigs s = some sg)
    (hl : signal.emit_loop call fwd s sg.destroyed n (slots_begin sg.slots) x
      (w.setSig s (some { sg with inside_emit := (sg.inside_emit + 1) % SIZE_MOD }))
        = .returned w2) :
    signal.emit_with call fwd n s x w = .ok w2 := by
  simp only [signal.emit_with, hs, hl]

theorem env_nest_passive (l : List slot_t) (h : ∀ c, some c ∈ l → c ≠ 5 ∧ c ≠ 8 ∧ c ≠ 9) :
    Passive env_nest l := by
  intro c hc
  obtain ⟨h5, h8, h9⟩ := h c hc
  simp [env_nest, h5, h8, h9, Stmt.isRecord]

/-! ## A callable that empties another slot and calls the signal again -/

/-- The body `b1; conns[h].disconnect(); if (p) sigs[s](y); b2` when `conns[h]` has no registry
reference and `p` fails of the argument: only the recording statements have an effect. -/
theorem run_calm (emitF : Nat → α → World α → Res (World α)) (a y : α) (h s : Nat)
    (p : α → Bool) (b1 b2 : List (Stmt α)) (w : World α)
    (hb1 : b1.all Stmt.isRecord = true) (hb2 : b2.all Stmt.isRecord = true)
    (hh : (w.conns h).sig = none) (hp : p a = false) :
    ∃ w1 : World α,
      run emitF a (b1 ++ .disconnect h :: .emit_if p s y :: b2) w = .ok w1 ∧
      w1.sigs = w.sigs ∧ w1.flags = w.flags ∧
      w1.log = w.log ++ records (b1 ++ .disconnect h :: .emit_if p s y :: b2) a := by
  refine ⟨(((w.addLog (records b1 a)).setConn h (w.conns h)).addLog (records b2 a)), ?_, rfl, rfl,
    ?_⟩
  · rw [run_records_append _ _ _ _ _ hb1]
    have hd : ((w.addLog (records b1 a)).conns h).disconnect (w.addLog (records b1 a))
        = some (w.conns h, w.addLog (records b1 a)) :=
      disconnect_detached _ _ hh
    simp only [run, exec, hd, hp, Bool.false_eq_true, if_false]
    exact run_records _ _ _ _ hb2
  · simp [World.addLog, World.setConn, records_append, records, List.append_assoc]

/-- An emission in which the callable of `nc` is such a body and does not call the signal
again: every non-empty slot is called once, in list order. -/
theorem emit_calm (env : Env α) (n s c h : Nat) (x y : α) (w : World α) (sg : signal)
    (pre post : slots_t) (nc : Node) (b1 b2 : List (Stmt α)) (p : α → Bool)
    (hs : w.sigs s = some sg) (hsl : sg.slots = pre ++ nc :: post) (hnd : (ids sg.slots).Nodup)
    (hc : nc.slot = some c) (hcode : env.code c = b1 ++ .disconnect h :: .emit_if p s y :: b2)
    (hb1 : b1.all Stmt.isRecord = true) (hb2 : b2.all Stmt.isRecord = true)
    (hh : (w.conns h).sig = none) (hpx : p (pass_arg env (fns pre) x) = false)
    (hf : w.flags sg.destroyed = false) (hpre : Passive env (fns pre))
    (hpost : Passive env (fns post))
    (hk : sg.inside_emit < SIZE_MOD) (hfuel : pre.length + post.length + 2 ≤ n) :
    ∃ WF : World α, emit env (n + 1) s x w = .ok WF ∧
      WF.sigs s = some { slots := if sg.inside_emit = 0 then compact sg.slots else sg.slots,
                         inside_emit := sg.inside_emit, destroyed := sg.destroyed } ∧
      WF.flags = w.flags ∧ WF.log = w.log ++ pass_log env (fns sg.slots) x := by
  obtain ⟨W1, hrun, e1, e2, e3⟩ := run_calm (emit env n) (pass_arg env (fns pre) x) y h s p b1 b2
    ((w.setSig s (some { sg with inside_emit := (sg.inside_emit + 1) % SIZE_MOD })).addLog
        (pass_log env (fns pre) x)) hb1 hb2
    (by simpa [World.addLog, World.setSig] using hh) hpx
  rw [← hcode] at hrun e3
  obtain ⟨WF, hemit, hWs, hWf, _, hWl⟩ := emit_special_facts env n s c x w W1 sg
    { sg with inside_emit := (sg.inside_emit + 1) % SIZE_MOD }
    pre post post nc nc hs hsl hnd hc hpre hf hk hrun
    (by rw [e2]; simpa [World.addLog, World.setSig] using hf)
    (by rw [e1]; simp [World.addLog, World.setSig]) hsl rfl hnd hpost rfl rfl hfuel
  refine ⟨WF, hemit, hWs, ?_, ?_⟩
  · rw [hWf, e2]; rfl
  · rw [hWl, e3]
    simp only [World.addLog, World.setSig, hsl, fns_split, hc, pass_log_append, pass_log,
      List.append_assoc]

theorem env_cond_passive (l : List slot_t) (h : ∀ c, some c ∈ l → c ≠ 5) :
    Passive env_cond l := by
  intro c hc
  have h5 := h c hc
  simp [env_cond, h5, Stmt.isRecord]

/-! ## Claims -/

/-- C1. Starting from a freshly constructed registry at `s`, `N = cs.length` calls of `connect`
(callables `cs`, which only record: they neither raise nor touch the registry; every connection
is kept) followed by one emission with argument `x` return normally, and the observations are
exactly those of calling every callable once, in the order of connection: the recorded tags are
the tags of the first callable, then those of the second, and so on. -/
theorem connect_then_emit_in_order (env : Env α) (s h0 : Nat) (cs : List Nat) (x a : α)
    (fuel : Nat) (hp : Passive env (cs.map some)) (hfuel : cs.length + 2 ≤ fuel) :
    ∃ w : World α,
      main env fuel a (.construct s :: (connects s h0 cs ++ [.emit s x])) = .ok w ∧
      w.log = pass_log env (cs.map some) x ∧
      w.log.map Prod.fst = (cs.map (fun c => tags (env.code c))).flatten := by
  obtain ⟨w1, sl, h1, h2, h3, h4, _, h6, h7⟩ := run_connects (emit env fuel) a s [.emit s x] cs h0
    (signal.ctor s World.init) { slots := [], inside_emit := 0, destroyed := 0 }
    (by simp [signal.ctor, World.setSig, World.setFlag, World.init])
    (by intro h _; simp [signal.ctor, World.setSig, World.setFlag, World.init])
    (by intro i hi; simp [ids] at hi)
    (by simp [ids])
  have hfns : fns sl = cs.map some := by rw [h3]; simp [fns]
  have hlen : sl.length = cs.length := by
    have := congrArg List.length hfns
    simpa [fns] using this
  have hflag : w1.flags 0 = false := by
    rw [h6]; simp [signal.ctor, World.setSig, World.setFlag, World.init]
  have hemit := emit_passive env fuel s x w1 { slots := sl, inside_emit := 0, destroyed := 0 }
    h2 h4 (by rw [hfns]; exact hp) hflag (by simp [SIZE_MOD]) (by simp only [hlen]; exact hfuel)
  have hmain : main env fuel a (.construct s :: (connects s h0 cs ++ [.emit s x]))
      = emit env fuel s x w1 := by
    simp only [main, run, exec]
    rw [h1]
    simp only [run, exec]
    cases emit env fuel s x w1 <;> rfl
  have hlog : w1.log = [] := by
    rw [h7]; simp [signal.ctor, World.setSig, World.setFlag, World.init]
  rw [hmain, hemit]
  refine ⟨_, rfl, ?_, ?_⟩
  · simp [World.setSig, World.addLog, hlog, hfns]
  · simp [World.setSig, World.addLog, hlog, hfns, pass_log_tags]

/-- C1 at the specification's example: callables 1 and 2 connected in this order, `R(5)`. -/
theorem connect_then_emit_in_order_witness :
    Passive env_int ([1, 2].map some) ∧ [1, 2].length + 2 ≤ 4 ∧
    ∃ w : World Nat,
      main env_int 4 0 (.construct 0 :: (connects 0 0 [1, 2] ++ [.emit 0 5])) = .ok w ∧
      w.log = pass_log env_int ([1, 2].map some) 5 ∧
      w.log.map Prod.fst = ([1, 2].map (fun c => tags (env_int.code c))).flatten :=
  have hp : Passive env_int ([1, 2].map some) := by
    intro c _; rfl
  ⟨hp, by decide, connect_then_emit_in_order env_int 0 0 [1, 2] 5 0 4 hp (by decide)⟩

/-- C2. On an idle registry `s` (`inside_emit = 0`) let connection `h` designate node `nd`,
the other slots (`pre` before it, `post` after it) holding recording callables. After
`h.disconnect()`, any sequence of emissions (arguments `ys`) returns normally and observes, per
emission, exactly one call of every callable of `pre ++ post` in list order: the callable of
`nd` is never called, whatever its code. -/
theorem disconnect_then_emit (env : Env α) (s h fuel : Nat) (a : α) (w : World α) (sg : signal)
    (pre post : slots_t) (nd : Node) (ys : List α)
    (hs : w.sigs s = some sg) (hidle : sg.inside_emit = 0) (hsl : sg.slots = pre ++ nd :: post)
    (hnd : (ids sg.slots).Nodup)
    (hc : w.conns h = { sig := some s, destroyed := some sg.destroyed, it := some nd.id })
    (hf : w.flags sg.destroyed = false) (hp : Passive env (fns (pre ++ post)))
    (hfuel : sg.slots.length + 1 ≤ fuel) :
    ∃ w1 : World α,
      run (emit env fuel) a (.disconnect h :: ys.map (.emit s)) w = .ok w1 ∧
      w1.log = w.log ++ (ys.map (pass_log env (fns (pre ++ post)))).flatten ∧
      (w1.conns h).sig = none := by
  have hdis := exec_disconnect_idle (emit env fuel) a s h w sg pre post nd hs hidle hsl hnd hc hf
  have hnd2 : (ids (pre ++ post)).Nodup := by
    rw [hsl] at hnd
    simp only [ids, List.map_append, List.map_cons] at *
    exact List.Nodup.sublist
      (List.Sublist.append_left (List.sublist_cons_self _ _) _) hnd
  obtain ⟨w1, h1, h2, h3, _⟩ := run_emits_passive env fuel s a ys
    ((w.setSig s (some { sg with slots := pre ++ post })).setConn h
        { sig := none, destroyed := none, it := some nd.id })
    { sg with slots := pre ++ post }
    (by simp [World.setConn, World.setSig]) hnd2 hp
    (by simpa [World.setConn, World.setSig] using hf)
    (by simp [hidle, SIZE_MOD])
    (by
      rw [hsl] at hfuel
      simp only [List.length_append, List.length_cons] at *
      omega)
  refine ⟨w1, ?_, ?_, ?_⟩
  · simp only [run, hdis]
    exact h1
  · rw [h2]; rfl
  · rw [h3]; simp [World.setConn]

/-- C2 at the specification's example: after `connect A`, `connect B` and `R(5)` (which
recorded `[1,5],[2,5]`), disconnecting `A` and calling `R(7)` adds only `[2,7]`. -/
theorem disconnect_then_emit_witness :
    world_AB.log = [(1, 5), (2, 5)] ∧
    (run (emit env_int 4) 0 [.disconnect 0, .emit 0 7] world_AB).log?
      = some [(1, 5), (2, 5), (2, 7)] ∧
    ∃ w1 : World Nat,
      run (emit env_int 4) 0 (.disconnect 0 :: [7].map (.emit 0)) world_AB = .ok w1 ∧
      w1.log = world_AB.log ++ ([7].map (pass_log env_int (fns ([] ++ [⟨2, some 2⟩])))).flatten ∧
      (w1.conns 0).sig = none :=
  ⟨by decide, by decide,
   disconnect_then_emit env_int 0 0 4 0 world_AB
    { slots := [⟨1, some 1⟩, ⟨2, some 2⟩], inside_emit := 0, destroyed := 0 }
    [] [⟨2, some 2⟩] ⟨1, some 1⟩ [7]
    (by decide) rfl rfl (by decide) (by decide) (by decide) (by intro c _; rfl) (by decide)⟩

/-- C3 fails on the code. Callables 1, 2, 3 are connected and callable 2 disconnects its own
connection `conns[1]`, which designates the node 2 whose function the loop of `R(5)` is
executing (line 103). After the first two statements of callable 2 the emission is still in
progress and line 55 has emptied the slot of node 2: the function object under execution is
destroyed, while callable 2 still has a statement to run that uses its state. What the program
does from there on is undefined when the callable has captured state. -/
theorem self_disconnect_empties_running_slot :
    world_123.conns 1 = { sig := some 0, destroyed := some 0, it := some 2 } ∧
    (world_123_at_2.sigs 0).map (fun g => slots_deref g.slots 2) = some (some ⟨2, some 2⟩) ∧
    (run (emit env_self 3) 5 ((env_self.code 2).take 2) world_123_at_2).world.sigs 0
      = some { slots := [⟨1, some 1⟩, ⟨2, none⟩, ⟨3, some 3⟩], inside_emit := 1,
               destroyed := 0 } ∧
    records ((env_self.code 2).drop 2) 5 = [(20, 5)] := by
  decide

/-- C4. Let the slots of a live registry `s` be `pre ++ nc :: post`, where the callable `c` of
`nc` records (`b1`), evaluates `conns[h] = connect(d)` on the same registry for a recording
callable `d` and a connection variable `h` that is not connected, and records again (`b2`), and
where the other callables only record. An emission with argument `x` returns normally and
observes one call of every callable of the original list, in list order, followed by exactly one
call of `d`; afterwards `d` is the last slot of the list and `h` is connected to it. -/
theorem connect_during_emit (env : Env α) (s h c d fuel : Nat) (x : α) (w : World α)
    (sg : signal) (pre post : slots_t) (nc : Node) (b1 b2 : List (Stmt α))
    (hs : w.sigs s = some sg) (hsl : sg.slots = pre ++ nc :: post) (hnd : (ids sg.slots).Nodup)
    (hlt : ∀ i ∈ ids sg.slots, i < w.fresh)
    (hc : nc.slot = some c) (hcode : env.code c = b1 ++ .connect s h (some d) :: b2)
    (hb1 : b1.all Stmt.isRecord = true) (hb2 : b2.all Stmt.isRecord = true)
    (hd : (env.code d).all Stmt.isRecord = true)
    (hh : (w.conns h).sig = none)
    (hf : w.flags sg.destroyed = false) (hp : Passive env (fns (pre ++ post)))
    (hk : sg.inside_emit < SIZE_MOD) (hfuel : sg.slots.length + 3 ≤ fuel) :
    ∃ (w1 : World α) (sg1 : signal),
      emit env fuel s x w = .ok w1 ∧
      w1.log = w.log ++ (pass_log env (fns sg.slots) x
        ++ records (env.code d) (pass_arg env (fns sg.slots) x)) ∧
      w1.sigs s = some sg1 ∧ (fns sg1.slots).getLast? = some (some d) ∧
      w1.conns h = { sig := some s, destroyed := some sg.destroyed, it := some w.fresh } ∧
      slots_deref sg1.slots w.fresh = some ⟨w.fresh, some d⟩ := by
  obtain ⟨n, rfl⟩ : ∃ n, fuel = n + 1 := ⟨fuel - 1, by omega⟩
  have hlen : sg.slots.length = pre.length + post.length + 1 := by
    rw [hsl]; simp only [List.length_append, List.length_cons]; omega
  have hpre : Passive env (fns pre) := by
    have := hp; simp only [fns, List.map_append] at this; exact this.append_left
  have hpost : Passive env (fns post) := by
    have := hp; simp only [fns, List.map_append] at this; exact this.append_right
  have hpost1 : Passive env (fns (post ++ [⟨w.fresh, some d⟩])) := by
    intro c2 hc2
    simp only [fns, List.map_append, List.map_cons, List.map_nil, List.mem_append,
      List.mem_singleton, Option.some.injEq] at hc2
    rcases hc2 with hc2 | hc2
    · exact hpost c2 hc2
    · rw [hc2]; exact hd
  have hcon := exec_connect_detached (emit env n) (pass_arg env (fns pre) x) s h (some d)
    (((w.setSig s (some { sg with inside_emit := (sg.inside_emit + 1) % SIZE_MOD })).addLog
        (pass_log env (fns pre) x)).addLog (records b1 (pass_arg env (fns pre) x)))
    { sg with inside_emit := (sg.inside_emit + 1) % SIZE_MOD }
    (by simp [World.addLog, World.setSig])
    (by simpa [World.addLog, World.setSig] using hh)
  have hcall : run (emit env n) (pass_arg env (fns pre) x) (env.code c)
      ((w.setSig s (some { sg with inside_emit := (sg.inside_emit + 1) % SIZE_MOD })).addLog
        (pass_log env (fns pre) x)) = .ok
      ((({ (((w.setSig s (some { sg with inside_emit := (sg.inside_emit + 1) % SIZE_MOD })).addLog
        (pass_log env (fns pre) x)).addLog (records b1 (pass_arg env (fns pre) x))).setSig s
          (some { slots := sg.slots ++ [⟨w.fresh, some d⟩],
                  inside_emit := (sg.inside_emit + 1) % SIZE_MOD,
                  destroyed := sg.destroyed }) with fresh := w.fresh + 1 } : World α).setConn h
          { sig := some s, destroyed := some sg.destroyed, it := some w.fresh }).addLog
        (records b2 (pass_arg env (fns pre) x))) := by
    rw [hcode, run_records_append _ _ _ _ _ hb1]
    simp only [run, hcon]
    exact run_records _ _ _ _ hb2
  have hnd1 : (ids (sg.slots ++ [⟨w.fresh, some d⟩])).Nodup := by
    simp only [ids, List.map_append, List.map_cons, List.map_nil]
    apply List.Nodup.append hnd (List.nodup_singleton _)
    intro i hi1 hi2
    simp only [List.mem_singleton] at hi2
    have := hlt i hi1
    omega
  obtain ⟨WF, hemit, hWs, _, hWc, hWl⟩ := emit_special_facts env n s c x w _ sg
    { slots := sg.slots ++ [⟨w.fresh, some d⟩],
      inside_emit := (sg.inside_emit + 1) % SIZE_MOD, destroyed := sg.destroyed }
    pre post (post ++ [⟨w.fresh, some d⟩]) nc nc hs hsl hnd hc hpre hf hk hcall
    (by simpa [World.addLog, World.setSig, World.setConn] using hf)
    (by simp [World.addLog, World.setSig, World.setConn])
    (by simp [hsl]) rfl hnd1 hpost1 rfl rfl
    (by simp only [List.length_append, List.length_cons, List.length_nil]; omega)
  have hnew : w.fresh ∉ ids sg.slots := fun hm => absurd (hlt _ hm) (lt_irrefl _)
  refine ⟨WF, _, hemit, ?_, hWs, ?_, ?_, ?_⟩
  · rw [hWl]
    simp only [World.addLog, World.setSig, World.setConn, hcode, hsl, fns_split, hc,
      pass_log_append, pass_arg_append, pass_log, pass_arg, records_append, records,
      List.append_assoc, fns, List.map_append, List.map_cons, List.map_nil, List.append_nil]
  · by_cases h0 : sg.inside_emit = 0
    · simp [h0, compact_append, compact, fns]
    · simp [h0, fns]
  · rw [hWc]; simp [World.addLog, World.setSig, World.setConn]
  · have hat : slots_deref (sg.slots ++ [⟨w.fresh, some d⟩]) w.fresh = some ⟨w.fresh, some d⟩ :=
      slots_deref_at sg.slots ⟨w.fresh, some d⟩ [] hnew
    by_cases h0 : sg.inside_emit = 0
    · simp only [h0, if_true, compact_append]
      have hnew2 : w.fresh ∉ ids (compact sg.slots) := by
        intro hm
        apply hnew
        simp only [ids, List.mem_map] at *
        obtain ⟨nn, hn1, hn2⟩ := hm
        rw [compact_eq_filter] at hn1
        exact ⟨nn, (List.mem_filter.mp hn1).1, hn2⟩
      exact slots_deref_at (compact sg.slots) ⟨w.fresh, some d⟩ [] hnew2
    · simp only [h0, if_false]; exact hat

/-- C4 at an example: callables 1, 4, 3 are connected and callable 4 connects callable 7
during the emission. `R(5)` calls 1, 4, 3 and then 7. -/
theorem connect_during_emit_witness :
    (main env_ex 6 0 (.construct 0 :: connects 0 0 [1, 4, 3] ++ [.emit 0 5])).log?
      = some [(1, 5), (4, 5), (3, 5), (7, 5)] ∧
    ∃ (w1 : World Nat) (sg1 : signal),
      emit env_ex 6 0 5 world_143 = .ok w1 ∧
      w1.log = world_143.log
        ++ (pass_log env_ex (fns [⟨1, some 1⟩, ⟨2, some 4⟩, ⟨3, some 3⟩]) 5
        ++ records (env_ex.code 7)
            (pass_arg env_ex (fns [⟨1, some 1⟩, ⟨2, some 4⟩, ⟨3, some 3⟩]) 5)) ∧
      w1.sigs 0 = some sg1 ∧ (fns sg1.slots).getLast? = some (some 7) ∧
      w1.conns 9 = { sig := some 0, destroyed := some 0, it := some world_143.fresh } ∧
      slots_deref sg1.slots world_143.fresh = some ⟨world_143.fresh, some 7⟩ :=
  ⟨by decide,
   connect_during_emit env_ex 0 9 4 7 6 5 world_143
    { slots := [⟨1, some 1⟩, ⟨2, some 4⟩, ⟨3, some 3⟩], inside_emit := 0, destroyed := 0 }
    [⟨1, some 1⟩] [⟨3, some 3⟩] ⟨2, some 4⟩ [.record 4] []
    (by decide) rfl (by decide) (by decide) rfl rfl rfl rfl rfl (by decide) (by decide)
    (by
      intro c hc
      simp [fns] at hc
      rcases hc with rfl | rfl <;> rfl)
    (by simp [SIZE_MOD]) (by decide)⟩

/-- C6. Let the slots of a live registry `s` be `pre ++ nc :: post`, where the callables of
`pre` and `post` only record and the callable `c` of `nc` is `b1; raise p e; b2` with recording
`b1`, `b2`, and let `p` hold of the argument that `c` receives in an emission with argument `x`
(the registry is not destroyed). The emission throws `e` to its caller; what was observed is the
calls of `pre` and the part of `c` before the throw, nothing of `post`; `inside_emit` is what it
was before the call; if that is zero no empty slot remains, and in any case the list is the old
one up to the removal of empty slots. A subsequent emission whose argument does not make `c`
throw returns normally and calls every remaining non-empty slot once, in order. -/
theorem raise_during_emit (env : Env α) (s c e fuel : Nat) (x : α) (w : World α)
    (sg : signal) (pre post : slots_t) (nc : Node) (b1 b2 : List (Stmt α)) (p : α → Bool)
    (hs : w.sigs s = some sg) (hsl : sg.slots = pre ++ nc :: post) (hnd : (ids sg.slots).Nodup)
    (hc : nc.slot = some c) (hcode : env.code c = b1 ++ .raise p e :: b2)
    (hb1 : b1.all Stmt.isRecord = true) (hb2 : b2.all Stmt.isRecord = true)
    (hpx : p (pass_arg env (fns pre) x) = true)
    (hf : w.flags sg.destroyed = false) (hp : Passive env (fns (pre ++ post)))
    (hk : sg.inside_emit < SIZE_MOD) (hfuel : sg.slots.length + 2 ≤ fuel) :
    ∃ (w1 : World α) (sg1 : signal),
      emit env fuel s x w = .thrown e w1 ∧
      w1.log = w.log ++ (pass_log env (fns pre) x ++ records b1 (pass_arg env (fns pre) x)) ∧
      w1.sigs s = some sg1 ∧ sg1.inside_emit = sg.inside_emit ∧
      (sg.inside_emit = 0 → ∀ n ∈ sg1.slots, n.slot ≠ none) ∧
      sg1.slots = (if sg.inside_emit = 0 then compact sg.slots else sg.slots) ∧
      ∀ y : α, p (pass_arg env (fns pre) y) = false →
        ∃ w2 : World α, emit env fuel s y w1 = .ok w2 ∧
          w2.log = w1.log ++ pass_log env (fns sg1.slots) y := by
  obtain ⟨n, rfl⟩ : ∃ n, fuel = n + 1 := ⟨fuel - 1, by omega⟩
  have hlen : sg.slots.length = pre.length + post.length + 1 := by
    rw [hsl]; simp only [List.length_append, List.length_cons]; omega
  have hpre : Passive env (fns pre) := by
    have := hp; simp only [fns, List.map_append] at this; exact this.append_left
  have hcall := run_raise (emit env n) (pass_arg env (fns pre) x) b1 b2 p e
    ((w.setSig s (some { sg with inside_emit := (sg.inside_emit + 1) % SIZE_MOD })).addLog
        (pass_log env (fns pre) x)) hb1 hpx
  rw [← hcode] at hcall
  have hemit := emit_throw env n s c e x w _ sg
    { sg with inside_emit := (sg.inside_emit + 1) % SIZE_MOD } pre post nc hs hsl hnd hc hpre hf
    hk hcall (by simp [World.addLog, World.setSig]) rfl (by omega)
  refine ⟨_, _, hemit, ?_, World.setSig_same _ _ _, rfl, ?_, rfl, ?_⟩
  · simp [World.addLog, World.setSig, List.append_assoc]
  · intro h0 nn hn
    simp only [h0, if_true] at hn
    exact compact_no_empty _ nn hn
  · intro y hpy
    have hflag : (((w.setSig s (some { sg with
        inside_emit := (sg.inside_emit + 1) % SIZE_MOD })).addLog
        (pass_log env (fns pre) x)).addLog (records b1 (pass_arg env (fns pre) x))).flags
          sg.destroyed = false := by
      simpa [World.addLog, World.setSig] using hf
    by_cases h0 : sg.inside_emit = 0
    · have hsplit : compact sg.slots = compact pre ++ nc :: compact post := by
        rw [hsl, compact_append]; simp [compact, hc]
      have hlen2 : (compact sg.slots).length ≤ sg.slots.length := by
        rw [compact_eq_filter]; exact List.length_filter_le _ _
      have hp2 : Passive env (fns (compact pre ++ compact post)) := by
        rw [← compact_append]; exact hp.compact
      simp only [h0, if_true]
      exact emit_no_raise env s c e (n + 1) y _
        { slots := compact sg.slots, inside_emit := 0, destroyed := sg.destroyed }
        (compact pre) (compact post) nc b1 b2 p
        (by rw [← h0]; exact World.setSig_same _ _ _) hsplit (compact_nodup _ hnd) hc hcode hb1 hb2
        (by rw [pass_arg_compact]; exact hpy)
        (by simp only [World.setSig]; exact hflag) hp2 (by simp [SIZE_MOD])
        (by show (compact sg.slots).length + 2 ≤ n + 1; omega)
    · simp only [h0, if_false]
      exact emit_no_raise env s c e (n + 1) y _
        { slots := sg.slots, inside_emit := sg.inside_emit, destroyed := sg.destroyed }
        pre post nc b1 b2 p
        (World.setSig_same _ _ _) hsl hnd hc hcode hb1 hb2 hpy
        (by simp only [World.setSig]; exact hflag) hp hk hfuel

/-- C6 at an example: callables 1, 6, 3 are connected and callable 6 throws 99 when it
receives 5. `R(5)` calls 1 and 6 and throws; a subsequent `R(7)` calls 1, 6 and 3. -/
theorem raise_during_emit_witness :
    (emit env_ex 5 0 7 (emit env_ex 5 0 5 world_163).world).log?
      = some [(1, 5), (6, 5), (1, 7), (6, 7), (60, 7), (3, 7)] ∧
    ∃ (w1 : World Nat) (sg1 : signal),
      emit env_ex 5 0 5 world_163 = .thrown 99 w1 ∧
      w1.log = world_163.log ++ (pass_log env_ex (fns [⟨1, some 1⟩]) 5
        ++ records [Stmt.record 6] (pass_arg env_ex (fns [⟨1, some 1⟩]) 5)) ∧
      w1.sigs 0 = some sg1 ∧ sg1.inside_emit = 0 ∧
      ((0 : Nat) = 0 → ∀ n ∈ sg1.slots, n.slot ≠ none) ∧
      sg1.slots = (if (0 : Nat) = 0 then compact [⟨1, some 1⟩, ⟨2, some 6⟩, ⟨3, some 3⟩]
        else [⟨1, some 1⟩, ⟨2, some 6⟩, ⟨3, some 3⟩]) ∧
      ∀ y : Nat, (fun v => v == 5) (pass_arg env_ex (fns [⟨1, some 1⟩]) y) = false →
        ∃ w2 : World Nat, emit env_ex 5 0 y w1 = .ok w2 ∧
          w2.log = w1.log ++ pass_log env_ex (fns sg1.slots) y :=
  ⟨by decide,
   raise_during_emit env_ex 0 6 99 5 5 world_163
    { slots := [⟨1, some 1⟩, ⟨2, some 6⟩, ⟨3, some 3⟩], inside_emit := 0, destroyed := 0 }
    [⟨1, some 1⟩] [⟨3, some 3⟩] ⟨2, some 6⟩ [.record 6] [.record 60] (fun v => v == 5)
    (by decide) rfl (by decide) rfl rfl rfl rfl rfl (by decide)
    (by
      intro c hc
      simp [fns] at hc
      rcases hc with rfl | rfl <;> rfl)
    (by simp [SIZE_MOD]) (by decide)⟩

/-- C5, as amended. For a connection bound to a registry whose liveness flag reads destroyed,
`disconnect()` raises no error and changes nothing: the world is unchanged and the connection
keeps its fields, its registry reference included (it is not cleared). -/
theorem disconnect_after_destroy (c : connection) (w : World α) (s d : Nat)
    (hs : c.sig = some s) (hd : c.destroyed = some d) (hf : w.flags d = true) :
    c.disconnect w = some (c, w) ∧ (∀ p ∈ c.disconnect w, p.1.sig = some s) :=
  ⟨disconnect_destroyed c w s d hs hd hf, by
    intro p hp
    rw [disconnect_destroyed c w s d hs hd hf] at hp
    cases hp
    exact hs⟩

/-- C5, amended, at the connection `conns[0]` of a signal that was connected and destroyed. -/
theorem disconnect_after_destroy_witness :
    (world_gone.conns 0).sig = some 0 ∧ (world_gone.conns 0).destroyed = some 0 ∧
    world_gone.flags 0 = true ∧
    (world_gone.conns 0).disconnect world_gone = some (world_gone.conns 0, world_gone) ∧
    (∀ p ∈ (world_gone.conns 0).disconnect world_gone, p.1.sig = some 0) :=
  ⟨rfl, rfl, rfl, disconnect_after_destroy (world_gone.conns 0) world_gone 0 0 rfl rfl rfl⟩

/-- C5 as stated fails: after `signal()`, `connect`, destruction of the signal and
`disconnect()`, the registry reference of the connection is still non-null. -/
theorem disconnect_after_destroy_not_cleared :
    (world_gone.conns 0).sig = some 0 ∧ world_gone.flags 0 = true ∧
    world_gone.sigs 0 = none ∧
    ((world_gone.conns 0).disconnect world_gone).map (fun p => p.1.sig) = some (some 0) ∧
    (main env_int 1 0
      [.construct 0, .connect 0 0 (some 1), .destroy 0, .disconnect 0]).world.conns 0
      = { sig := some 0, destroyed := some 0, it := some 1 } := by
  decide

/-- C7. `disconnect()` is idempotent: a second call leaves the connection and the world (slot
lists, `inside_emit`, flags) as the first call left them; on a connection without a registry
reference (default-constructed, moved-from or already disconnected) `disconnect()` and the
destructor change nothing. -/
theorem disconnect_idempotent (c : connection) (w : World α) (d i : Option Nat) :
    (c.disconnect w).bind (fun p => p.1.disconnect p.2) = c.disconnect w ∧
    ({} : connection).disconnect w = some ({}, w) ∧
    ({ sig := none, destroyed := d, it := i } : connection).disconnect w
      = some ({ sig := none, destroyed := d, it := i }, w) ∧
    ({ sig := none, destroyed := d, it := i } : connection).dtor w = some w := by
  refine ⟨?_, rfl, rfl, rfl⟩
  cases h : c.disconnect w with
  | none => rfl
  | some p =>
    obtain ⟨c1, w1⟩ := p
    exact disconnect_result c c1 w w1 h

/-- C10 fails on the code. With `Args = std::unique_ptr<int>` by value, callables 1 and 2
connected and `R(p)` for `p` owning 5: callable 1 receives `p`, callable 2 receives the null
pointer left by `std::forward<Args>(args)` in the first call. -/
theorem forwarded_argument_is_consumed :
    (main env_ptr 4 none
      [.construct 0, .connect 0 0 (some 1), .connect 0 1 (some 2), .emit 0 (some 5)]).log?
      = some [(1, some 5), (2, none)] := by
  decide

/-- C9. Let `cs` be a connection to node `nd` of a live registry `r`. Move construction from
`cs` gives the new connection exactly the registry reference, position and flag reference of
`cs` and leaves `cs` without registry reference, so that `disconnect()` on (or destruction of)
the moved-from `cs` changes nothing, while `disconnect()` on the new connection removes the slot
of `nd` (erased when the registry is idle, emptied in place during an emission). Move
assignment `cd = std::move(cs)` to a distinct connection `cd` has the effect of
`cd.disconnect()` followed by the same transfer. -/
theorem connection_move (cs cd : connection) (w : World α) (r : Nat) (sg : signal)
    (pre post : slots_t) (nd : Node)
    (hs : w.sigs r = some sg) (hsl : sg.slots = pre ++ nd :: post) (hnd : (ids sg.slots).Nodup)
    (hc : cs = { sig := some r, destroyed := some sg.destroyed, it := some nd.id })
    (hf : w.flags sg.destroyed = false) :
    cs.move_ctor.1 = cs ∧
    cs.move_ctor.2 = { sig := none, destroyed := none, it := cs.it } ∧
    cs.move_ctor.2.disconnect w = some (cs.move_ctor.2, w) ∧
    cs.move_ctor.2.dtor w = some w ∧
    cs.move_ctor.1.disconnect w = some
      ({ sig := none, destroyed := none, it := some nd.id },
       w.setSig r (some { sg with slots :=
         if sg.inside_emit ≠ 0 then pre ++ { nd with slot := none } :: post else pre ++ post })) ∧
    cd.move_assign cs w
      = (cd.disconnect w).map (fun q => (cs.move_ctor.1, cs.move_ctor.2, q.2)) := by
  have hnot : nd.id ∉ ids pre := by
    apply nodup_not_mem pre nd post
    rw [← hsl]; exact hnd
  have hderef : slots_deref sg.slots nd.id = some nd := by
    rw [hsl]; exact slots_deref_at _ _ _ hnot
  have herase : slots_erase sg.slots nd.id = pre ++ post := by
    rw [hsl]; exact slots_erase_at _ _ _ hnot
  have hclear : slots_clear sg.slots nd.id = pre ++ { nd with slot := none } :: post := by
    rw [hsl]; exact slots_clear_at _ _ _ hnot
  refine ⟨rfl, rfl, rfl, rfl, ?_, ?_⟩
  · subst hc
    by_cases hb : sg.inside_emit = 0
    · simp [connection.move_ctor, connection.disconnect, hf, hs, hderef, hb, herase]
    · simp [connection.move_ctor, connection.disconnect, hf, hs, hderef, hb, hclear]
  · simp only [connection.move_assign, connection.move_ctor]
    cases cd.disconnect w with
    | none => rfl
    | some q => rfl

/-- C9 at the example: `conns[0]` (callable 1) and `conns[1]` (callable 2) after `R(5)`. -/
theorem connection_move_witness :
    (world_AB.conns 0).move_ctor.1 = world_AB.conns 0 ∧
    (world_AB.conns 0).move_ctor.2
      = { sig := none, destroyed := none, it := (world_AB.conns 0).it } ∧
    (world_AB.conns 0).move_ctor.2.disconnect world_AB
      = some ((world_AB.conns 0).move_ctor.2, world_AB) ∧
    (world_AB.conns 0).move_ctor.2.dtor world_AB = some world_AB ∧
    (world_AB.conns 0).move_ctor.1.disconnect world_AB = some
      ({ sig := none, destroyed := none, it := some 1 },
       world_AB.setSig 0 (some { slots :=
         if (0 : Nat) ≠ 0 then [] ++ ({ id := 1, slot := none } : Node) :: [⟨2, some 2⟩]
         else [] ++ [⟨2, some 2⟩], inside_emit := 0, destroyed := 0 })) ∧
    (world_AB.conns 1).move_assign (world_AB.conns 0) world_AB
      = ((world_AB.conns 1).disconnect world_AB).map
          (fun q => ((world_AB.conns 0).move_ctor.1, (world_AB.conns 0).move_ctor.2, q.2)) :=
  connection_move (world_AB.conns 0) (world_AB.conns 1) world_AB 0
    { slots := [⟨1, some 1⟩, ⟨2, some 2⟩], inside_emit := 0, destroyed := 0 }
    [] [⟨2, some 2⟩] ⟨1, some 1⟩ (by decide) rfl (by decide) (by decide) (by decide)

/-- C8. Let `r` be an idle live registry with slots `pre ++ nd :: post` holding recording
callables, and `h` a connection to `nd`. Copy construction of a registry at `cc` from `r` gives
`cc` the functions of `r` in the same order, `inside_emit = 0` and a flag of its own reading
false, and leaves `r` as it was. Disconnecting `h` afterwards erases `nd` from `r` only: the
registry at `cc` is unchanged, and an emission on `cc` still calls every callable of the
original list once, the one of `nd` included. -/
theorem copy_is_independent (env : Env α) (r cc h fuel : Nat) (a x : α) (w : World α)
    (sg : signal) (pre post : slots_t) (nd : Node)
    (hs : w.sigs r = some sg) (hne : cc ≠ r) (hidle : sg.inside_emit = 0)
    (hsl : sg.slots = pre ++ nd :: post) (hnd : (ids sg.slots).Nodup)
    (hc : w.conns h = { sig := some r, destroyed := some sg.destroyed, it := some nd.id })
    (hf : w.flags sg.destroyed = false) (hfl : sg.destroyed < w.fresh)
    (hp : Passive env (fns sg.slots)) (hfuel : sg.slots.length + 2 ≤ fuel) :
    ∃ (w1 w2 w3 : World α) (sgc : signal),
      signal.copy_ctor cc r w = some w1 ∧
      w1.sigs cc = some sgc ∧ fns sgc.slots = fns sg.slots ∧ sgc.inside_emit = 0 ∧
      w1.flags sgc.destroyed = false ∧ sgc.destroyed ≠ sg.destroyed ∧ w1.sigs r = some sg ∧
      exec (emit env fuel) a (.disconnect h) w1 = .ok w2 ∧
      w2.sigs r = some { sg with slots := pre ++ post } ∧ w2.sigs cc = some sgc ∧
      (w2.conns h).sig = none ∧
      emit env fuel cc x w2 = .ok w3 ∧
      w3.log = w2.log ++ pass_log env (fns (pre ++ nd :: post)) x := by
  have hflne : sg.destroyed ≠ w.fresh := by omega
  have hrne : r ≠ cc := fun e => hne e.symm
  have hdis := exec_disconnect_idle (emit env fuel) a r h
    ({ (w.setFlag w.fresh false).setSig cc
      (some { slots := slots_copy (w.fresh + 1) sg.slots, inside_emit := 0,
              destroyed := w.fresh }) with fresh := w.fresh + 1 + sg.slots.length } : World α)
    sg pre post nd
    (by simp [World.setSig, World.setFlag, hrne, hs]) hidle hsl hnd
    (by simpa [World.setSig, World.setFlag] using hc)
    (by simp [World.setSig, World.setFlag, hflne, hf])
  have hemit := emit_passive env fuel cc x
    ((({ (w.setFlag w.fresh false).setSig cc
      (some { slots := slots_copy (w.fresh + 1) sg.slots, inside_emit := 0,
              destroyed := w.fresh }) with fresh := w.fresh + 1 + sg.slots.length } :
        World α).setSig r (some { sg with slots := pre ++ post })).setConn h
        { sig := none, destroyed := none, it := some nd.id })
    { slots := slots_copy (w.fresh + 1) sg.slots, inside_emit := 0, destroyed := w.fresh }
    (by simp [World.setSig, World.setFlag, World.setConn, hne])
    (by rw [ids_slots_copy]; exact List.nodup_range' _ _)
    (by rw [fns_slots_copy]; exact hp)
    (by simp [World.setSig, World.setFlag, World.setConn])
    (by simp [SIZE_MOD])
    (by simp only [length_slots_copy]; exact hfuel)
  refine ⟨_, _, _,
    { slots := slots_copy (w.fresh + 1) sg.slots, inside_emit := 0, destroyed := w.fresh },
    by simp only [signal.copy_ctor, hs], ?_, ?_, rfl, ?_, ?_, ?_, hdis, ?_, ?_, ?_, hemit, ?_⟩
  · simp [World.setSig, World.setFlag]
  · exact fns_slots_copy _ _
  · simp [World.setSig, World.setFlag]
  · exact fun e => hflne e.symm
  · simp [World.setSig, World.setFlag, hrne, hs]
  · simp [World.setSig, World.setFlag, World.setConn]
  · simp [World.setSig, World.setFlag, World.setConn, hne]
  · simp [World.setSig, World.setFlag, World.setConn]
  · simp [World.setSig, World.setFlag, World.setConn, World.addLog, fns_slots_copy, hsl]

/-- C8 at the specification's example: the registry 0 with callables 1 and 2 is copied to
address 1, then the connection of callable 1 is disconnected; `C(9)` on the copy calls 1 and 2. -/
theorem copy_is_independent_witness :
    (run (emit env_int 4) 0 [.copy 1 0, .disconnect 0, .emit 1 9, .emit 0 9] world_AB).log?
      = some [(1, 5), (2, 5), (1, 9), (2, 9), (2, 9)] ∧
    ∃ (w1 w2 w3 : World Nat) (sgc : signal),
      signal.copy_ctor 1 0 world_AB = some w1 ∧
      w1.sigs 1 = some sgc ∧ fns sgc.slots = fns [⟨1, some 1⟩, ⟨2, some 2⟩] ∧
      sgc.inside_emit = 0 ∧
      w1.flags sgc.destroyed = false ∧ sgc.destroyed ≠ 0 ∧
      w1.sigs 0 = some { slots := [⟨1, some 1⟩, ⟨2, some 2⟩], inside_emit := 0, destroyed := 0 } ∧
      exec (emit env_int 4) 0 (.disconnect 0) w1 = .ok w2 ∧
      w2.sigs 0 = some { slots := [] ++ [⟨2, some 2⟩], inside_emit := 0, destroyed := 0 } ∧
      w2.sigs 1 = some sgc ∧
      (w2.conns 0).sig = none ∧
      emit env_int 4 1 9 w2 = .ok w3 ∧
      w3.log = w2.log ++ pass_log env_int (fns ([] ++ ⟨1, some 1⟩ :: [⟨2, some 2⟩])) 9 :=
  ⟨by decide,
   copy_is_independent env_int 0 1 0 4 0 9 world_AB
    { slots := [⟨1, some 1⟩, ⟨2, some 2⟩], inside_emit := 0, destroyed := 0 }
    [] [⟨2, some 2⟩] ⟨1, some 1⟩ (by decide) (by decide) rfl rfl (by decide) (by decide)
    (by decide) (by decide)
    (by
      intro c hc
      simp [fns] at hc
      rcases hc with rfl | rfl <;> rfl)
    (by decide)⟩

/-- C12. Let connection `c` designate node `nd` of the live registry `s` (flag of `c` reading
false, slots `pre ++ nd :: post`). `disconnect()` returns with `c` detached, leaves the flags,
`inside_emit`, the flag reference of the registry and every other registry as they were, and
changes the slot list of `s` as follows: during an emission (`inside_emit ≠ 0`) the function of
`nd` is replaced by the empty one, in place, so that the length, the other slots and the order
are unchanged; otherwise exactly `nd` is unlinked, so that the length decreases by one and the
other slots keep their contents and order. -/
theorem disconnect_frame (c : connection) (w : World α) (s d : Nat) (sg : signal)
    (pre post : slots_t) (nd : Node)
    (hc : c = { sig := some s, destroyed := some d, it := some nd.id })
    (hs : w.sigs s = some sg) (hsl : sg.slots = pre ++ nd :: post) (hnd : (ids sg.slots).Nodup)
    (hf : w.flags d = false) :
    ∃ (c1 : connection) (w1 : World α) (sg1 : signal),
      c.disconnect w = some (c1, w1) ∧ c1.sig = none ∧
      w1.sigs s = some sg1 ∧ sg1.inside_emit = sg.inside_emit ∧ sg1.destroyed = sg.destroyed ∧
      w1.flags = w.flags ∧ (∀ k, k ≠ s → w1.sigs k = w.sigs k) ∧
      (sg.inside_emit ≠ 0 →
        sg1.slots = pre ++ { id := nd.id, slot := none } :: post ∧
        sg1.slots.length = sg.slots.length ∧ ids sg1.slots = ids sg.slots) ∧
      (sg.inside_emit = 0 →
        sg1.slots = pre ++ post ∧ sg1.slots.length + 1 = sg.slots.length) := by
  have hnot : nd.id ∉ ids pre := by
    apply nodup_not_mem pre nd post
    rw [← hsl]; exact hnd
  have hderef : slots_deref sg.slots nd.id = some nd := by
    rw [hsl]; exact slots_deref_at _ _ _ hnot
  have herase : slots_erase sg.slots nd.id = pre ++ post := by
    rw [hsl]; exact slots_erase_at _ _ _ hnot
  have hclear : slots_clear sg.slots nd.id = pre ++ { nd with slot := none } :: post := by
    rw [hsl]; exact slots_clear_at _ _ _ hnot
  subst hc
  refine ⟨{ sig := none, destroyed := none, it := some nd.id },
    w.setSig s (some { sg with slots :=
      if sg.inside_emit ≠ 0 then slots_clear sg.slots nd.id else slots_erase sg.slots nd.id }),
    { sg with slots :=
      if sg.inside_emit ≠ 0 then slots_clear sg.slots nd.id else slots_erase sg.slots nd.id },
    ?_, rfl, World.setSig_same _ _ _, rfl, rfl, rfl, ?_, ?_, ?_⟩
  · simp [connection.disconnect, hf, hs, hderef]
  · intro k hk
    exact World.setSig_other _ _ _ _ hk
  · intro hb
    simp only [hb, ne_eq, not_false_eq_true, if_true, hclear]
    refine ⟨trivial, ?_, ?_⟩
    · rw [hsl]; simp
    · rw [hsl]; simp [ids]
  · intro hb
    simp only [hb, ne_eq, not_true_eq_false, if_false, herase]
    refine ⟨trivial, ?_⟩
    rw [hsl]; simp only [List.length_append, List.length_cons]; omega

/-- C12 at the example: `conns[0]` designates the first of the two nodes of the idle
registry 0. -/
theorem disconnect_frame_witness :
    ∃ (c1 : connection) (w1 : World Nat) (sg1 : signal),
      (world_AB.conns 0).disconnect world_AB = some (c1, w1) ∧ c1.sig = none ∧
      w1.sigs 0 = some sg1 ∧ sg1.inside_emit = 0 ∧ sg1.destroyed = 0 ∧
      w1.flags = world_AB.flags ∧ (∀ k, k ≠ 0 → w1.sigs k = world_AB.sigs k) ∧
      ((0 : Nat) ≠ 0 →
        sg1.slots = [] ++ { id := 1, slot := none } :: [⟨2, some 2⟩] ∧
        sg1.slots.length = [(⟨1, some 1⟩ : Node), ⟨2, some 2⟩].length ∧
        ids sg1.slots = ids [⟨1, some 1⟩, ⟨2, some 2⟩]) ∧
      ((0 : Nat) = 0 →
        sg1.slots = [] ++ [⟨2, some 2⟩] ∧
        sg1.slots.length + 1 = [(⟨1, some 1⟩ : Node), ⟨2, some 2⟩].length) :=
  disconnect_frame (world_AB.conns 0) world_AB 0 0
    { slots := [⟨1, some 1⟩, ⟨2, some 2⟩], inside_emit := 0, destroyed := 0 }
    [] [⟨2, some 2⟩] ⟨1, some 1⟩ (by decide) (by decide) rfl (by decide) (by decide)

/-- C16. For a connection with a registry reference and a flag that reads destroyed,
`disconnect()` and the destructor return without fault and leave the connection and the whole
world as they were; this holds whatever the position of the connection and whatever the heap of
registries are (the registry may be gone and the position may designate nothing): neither is
read. -/
theorem disconnect_destroyed_reads_nothing (c : connection) (w : World α) (s d : Nat)
    (hs : c.sig = some s) (hd : c.destroyed = some d) (hf : w.flags d = true) :
    c.disconnect w = some (c, w) ∧ c.dtor w = some w ∧
    ∀ (i : Option Nat) (heap : Nat → Option signal),
      ({ c with it := i } : connection).disconnect { w with sigs := heap }
        = some ({ c with it := i }, { w with sigs := heap }) ∧
      ({ c with it := i } : connection).dtor { w with sigs := heap }
        = some { w with sigs := heap } := by
  have h1 := disconnect_destroyed c w s d hs hd hf
  refine ⟨h1, by simp [connection.dtor, h1], ?_⟩
  intro i heap
  have h2 := disconnect_destroyed ({ c with it := i } : connection)
    ({ w with sigs := heap } : World α) s d hs hd hf
  exact ⟨h2, by simp [connection.dtor, h2]⟩

/-- C16 at the connection `conns[0]` of a signal that was connected and destroyed. -/
theorem disconnect_destroyed_reads_nothing_witness :
    (world_gone.conns 0).disconnect world_gone = some (world_gone.conns 0, world_gone) ∧
    (world_gone.conns 0).dtor world_gone = some world_gone ∧
    ∀ (i : Option Nat) (heap : Nat → Option signal),
      ({ world_gone.conns 0 with it := i } : connection).disconnect
          { world_gone with sigs := heap }
        = some ({ world_gone.conns 0 with it := i }, { world_gone with sigs := heap }) ∧
      ({ world_gone.conns 0 with it := i } : connection).dtor { world_gone with sigs := heap }
        = some { world_gone with sigs := heap } :=
  disconnect_destroyed_reads_nothing (world_gone.conns 0) world_gone 0 0 rfl rfl rfl

/-- C13. Let an emission on the live registry `s` start with `inside_emit = 0`, the callables
being client code on this registry (`connect` of any function, `disconnect`, moves, nested
`emit`, `record`, `raise`). If the traversal ends, at `end()` or by an exception, in world `w2`,
then the registry is live there and the emission concludes with `inside_emit = 0` and with the
slot list of `w2` filtered from its empty slots: no empty slot remains, every non-empty slot is
still there, and the order is that of the list of `w2`. -/
theorem outermost_emit_compacts (env : Env α) (s n : Nat) (x : α) (w w2 : World α) (sg : signal)
    (r : LoopRes (World α))
    (hcode : ∀ c, (env.code c).all (Stmt.allowed s false) = true)
    (hs : w.sigs s = some sg) (h0 : sg.inside_emit = 0) (hf : w.flags sg.destroyed = false)
    (hfuel : n + 1 < SIZE_MOD)
    (hloop : signal.emit_loop (fun c a w1 => run (emit env n) a (env.code c) w1) env.forwarded s
      sg.destroyed n (slots_begin sg.slots) x
      (w.setSig s (some { sg with inside_emit := (sg.inside_emit + 1) % SIZE_MOD })) = r)
    (hr : r = .finished w2 ∨ ∃ e, r = .thrown e w2) :
    ∃ (sg2 sg3 : signal) (w3 : World α),
      w2.sigs s = some sg2 ∧
      (emit env (n + 1) s x w = .ok w3 ∨ ∃ e, emit env (n + 1) s x w = .thrown e w3) ∧
      w3 = w2.setSig s (some sg3) ∧ sg3.inside_emit = 0 ∧ sg3.destroyed = sg2.destroyed ∧
      sg3.slots = sg2.slots.filter (fun nd => nd.slot.isSome) ∧
      (∀ nd ∈ sg3.slots, nd.slot ≠ none) ∧
      (∀ nd ∈ sg2.slots, nd.slot ≠ none → nd ∈ sg3.slots) ∧
      sg3.slots.Sublist sg2.slots := by
  have hi : Inv s sg.destroyed false 0 w := ⟨sg, hs, h0, rfl, hf, by intro h; cases h⟩
  have hin := Inv.enter hs hi (by omega)
  have hl := emit_loop_inv (fun c a w1 => run (emit env n) a (env.code c) w1) env.forwarded
    s sg.destroyed false 1
    (fun c a w1 h1 => run_inv (emit env n) a s sg.destroyed false 1
      (fun x2 w2 h2 => emit_inv env s sg.destroyed false hcode n 1 x2 w2 (by omega) h2)
      (env.code c) (hcode c) w1 h1)
    n (slots_begin sg.slots) x _ hin
  rw [hloop] at hl
  have hi2 : Inv s sg.destroyed false 1 w2 := by
    rcases hr with hr | ⟨e, hr⟩ <;> (rw [hr] at hl; exact hl)
  obtain ⟨sg2, f1, f2, f3, f4, f5⟩ := hi2
  obtain ⟨g1, _⟩ := leave_emit_at s sg.destroyed false 0 w2 sg2 f1 ⟨sg2, f1, f2, f3, f4, f5⟩
    (by omega)
  simp only [if_true] at g1
  refine ⟨sg2, { slots := compact sg2.slots, inside_emit := 0, destroyed := sg.destroyed },
    _, f1, ?_, rfl, rfl, f3.symm, compact_eq_filter _, compact_no_empty _, ?_, ?_⟩
  · rcases hr with hr | ⟨e, hr⟩
    · left
      rw [emit_unfold, emit_with_finished _ _ n s x w w2 sg hs (hloop.trans hr), g1]
    · right
      refine ⟨e, ?_⟩
      rw [emit_unfold, emit_with_thrown _ _ n s e x w w2 sg hs (hloop.trans hr), g1]
  · intro nd hnd hne
    show nd ∈ compact sg2.slots
    rw [compact_eq_filter, List.mem_filter]
    refine ⟨hnd, ?_⟩
    cases hsl : nd.slot with
    | none => exact absurd hsl hne
    | some c => rfl
  · show (compact sg2.slots).Sublist sg2.slots
    rw [compact_eq_filter]
    exact List.filter_sublist _

/-- C13 at an example: callables 1, 2, 3 are connected and callable 2 disconnects its own
connection; at the end of the traversal of `R(5)` the list holds an empty slot between those of
1 and 3, and the emission concludes with the list of the slots of 1 and 3. -/
theorem outermost_emit_compacts_witness :
    loop_123.world.sigs 0
      = some { slots := [⟨1, some 1⟩, ⟨2, none⟩, ⟨3, some 3⟩], inside_emit := 1,
               destroyed := 0 } ∧
    (emit env_ex 5 0 5 world_123).world.sigs 0
      = some { slots := [⟨1, some 1⟩, ⟨3, some 3⟩], inside_emit := 0, destroyed := 0 } ∧
    ∃ (sg2 sg3 : signal) (w3 : World Nat),
      loop_123.world.sigs 0 = some sg2 ∧
      (emit env_ex (4 + 1) 0 5 world_123 = .ok w3 ∨
        ∃ e, emit env_ex (4 + 1) 0 5 world_123 = .thrown e w3) ∧
      w3 = loop_123.world.setSig 0 (some sg3) ∧
      sg3.inside_emit = 0 ∧ sg3.destroyed = sg2.destroyed ∧
      sg3.slots = sg2.slots.filter (fun nd => nd.slot.isSome) ∧
      (∀ nd ∈ sg3.slots, nd.slot ≠ none) ∧
      (∀ nd ∈ sg2.slots, nd.slot ≠ none → nd ∈ sg3.slots) ∧
      sg3.slots.Sublist sg2.slots :=
  ⟨by decide, by decide,
   outermost_emit_compacts env_ex 0 4 5 world_123 loop_123.world
    { slots := [⟨1, some 1⟩, ⟨2, some 2⟩, ⟨3, some 3⟩], inside_emit := 0, destroyed := 0 }
    loop_123
    (env_ex_allowed false) (by decide) rfl (by decide) (by simp [SIZE_MOD]) rfl (Or.inl rfl)⟩

/-- C18. Take client code (the top-level program and every callable) that works on the one
registry `s` by `connect` of non-empty functions, `disconnect`, moves of connections and `emit`
(besides `record` and `raise`), without constructing, copying or destroying a registry, and an
evaluation budget below the range of `size_t`. In every world that the program reaches from a
freshly constructed registry, the registry is live, `inside_emit = 0` and no slot is empty.
More generally such code, run when `k` emissions are in progress, ends with `k` emissions in
progress and, when `k = 0`, without empty slot: slots are empty only during an emission. -/
theorem idle_registry_has_no_empty_slot (env : Env α) (s fuel : Nat) (a : α)
    (prog : List (Stmt α))
    (hcode : ∀ c, (env.code c).all (Stmt.allowed s true) = true)
    (hprog : prog.all (Stmt.allowed s true) = true) (hfuel : fuel < SIZE_MOD) :
    (∀ w : World α,
      (main env fuel a (.construct s :: prog) = .ok w ∨
        ∃ e, main env fuel a (.construct s :: prog) = .thrown e w) →
      ∃ sg : signal, w.sigs s = some sg ∧ sg.inside_emit = 0 ∧ ∀ n ∈ sg.slots, n.slot ≠ none) ∧
    (∀ (d k : Nat) (body : List (Stmt α)) (w w1 : World α),
      body.all (Stmt.allowed s true) = true → k + fuel < SIZE_MOD → Inv s d true k w →
      (run (emit env fuel) a body w = .ok w1 ∨ ∃ e, run (emit env fuel) a body w = .thrown e w1) →
      Inv s d true k w1) := by
  have hgen : ∀ (d k : Nat) (body : List (Stmt α)) (w : World α),
      body.all (Stmt.allowed s true) = true → k + fuel < SIZE_MOD → Inv s d true k w →
      (run (emit env fuel) a body w).holds (Inv s d true k) := by
    intro d k body w hb hk hi
    exact run_inv (emit env fuel) a s d true k
      (fun x2 w2 h2 => emit_inv env s d true hcode fuel k x2 w2 hk h2) body hb w hi
  constructor
  · intro w hw
    have h1 := hgen 0 0 prog (signal.ctor s World.init) hprog (by omega) (Inv.fresh s true)
    have hm : main env fuel a (.construct s :: prog)
        = run (emit env fuel) a prog (signal.ctor s World.init) := by
      simp only [main, run, exec]
    rw [← hm] at h1
    have h2 : Inv s 0 true 0 w := by
      rcases hw with hw | ⟨e, hw⟩ <;> (rw [hw] at h1; exact h1)
    obtain ⟨sg, e1, e2, _, _, e5⟩ := h2
    exact ⟨sg, e1, e2, e5 rfl rfl⟩
  · intro d k body w w1 hb hk hi hw
    have h1 := hgen d k body w hb hk hi
    rcases hw with hw | ⟨e, hw⟩ <;> (rw [hw] at h1; exact h1)

/-- C18 at an example: callables 1, 2, 3 are connected, callable 2 disconnects its own
connection during `R(5)`; afterwards the registry is idle and holds the slots of 1 and 3. -/
theorem idle_registry_has_no_empty_slot_witness :
    (main env_ex 5 0 (.construct 0 :: (connects 0 0 [1, 2, 3] ++ [.emit 0 5]))).world.sigs 0
      = some { slots := [⟨1, some 1⟩, ⟨3, some 3⟩], inside_emit := 0, destroyed := 0 } ∧
    ∃ sg : signal,
      (main env_ex 5 0 (.construct 0 :: (connects 0 0 [1, 2, 3] ++ [.emit 0 5]))).world.sigs 0
        = some sg ∧ sg.inside_emit = 0 ∧ ∀ n ∈ sg.slots, n.slot ≠ none :=
  ⟨by decide,
   (idle_registry_has_no_empty_slot env_ex 0 5 0 (connects 0 0 [1, 2, 3] ++ [Stmt.emit 0 5])
      (env_ex_allowed true)
      (by
        rw [List.all_append, connects_allowed]
        rfl)
      (by simp [SIZE_MOD])).1
    (main env_ex 5 0 (Stmt.construct 0 :: (connects 0 0 [1, 2, 3] ++ [Stmt.emit 0 5]))).world
    (Or.inl (by rfl))⟩

/-- C14. Let the slots of a live registry `s` be `pre ++ nc :: post`, the callables of `pre`
only recording, and let the callable `c` of `nc` return normally in a world `W1` in which the
flag of the registry reads true, as it does once `~signal` has run (directly in `c`, or in a
callable of an emission nested in `c`). Then the emission returns at once: its result is `W1`
itself, so no slot of `post` is called and nothing is decremented or compacted. The same holds
of every enclosing emission on `s`, whose callable in turn returns with the flag reading true. -/
theorem destroy_during_emit (env : Env α) (n s c : Nat) (x : α) (w W1 : World α) (sg : signal)
    (pre post : slots_t) (nc : Node)
    (hs : w.sigs s = some sg) (hsl : sg.slots = pre ++ nc :: post) (hnd : (ids sg.slots).Nodup)
    (hc : nc.slot = some c) (hpre : Passive env (fns pre))
    (hf : w.flags sg.destroyed = false)
    (hcall : run (emit env n) (pass_arg env (fns pre) x) (env.code c)
      ((w.setSig s (some { sg with inside_emit := (sg.inside_emit + 1) % SIZE_MOD })).addLog
        (pass_log env (fns pre) x)) = .ok W1)
    (hgone : W1.flags sg.destroyed = true) (hfuel : pre.length + 1 ≤ n) :
    emit env (n + 1) s x w = .ok W1 ∧
    (∀ (v v1 : World α) (g : signal), v.sigs s = some g → signal.dtor s v = some v1 →
      v1.flags g.destroyed = true ∧ v1.sigs s = none) := by
  constructor
  · obtain ⟨m, hm⟩ : ∃ m, n = pre.length + (m + 1) := ⟨n - pre.length - 1, by omega⟩
    rw [emit_unfold]
    have hloop1 := emit_loop_passive env (emit env n) s sg.destroyed pre [] (nc :: post)
      (m + 1) x
      (w.setSig s (some { sg with inside_emit := (sg.inside_emit + 1) % SIZE_MOD }))
      { sg with inside_emit := (sg.inside_emit + 1) % SIZE_MOD }
      (World.setSig_same _ _ _) (by simp [hsl]) hnd hpre hf
    have hnot : nc.id ∉ ids pre := by
      apply nodup_not_mem pre nc post
      rw [← hsl]; exact hnd
    have hstep := emit_loop_return (fun c a w1 => run (emit env n) a (env.code c) w1)
      env.forwarded s sg.destroyed m nc.id (pass_arg env (fns pre) x)
      ((w.setSig s (some { sg with inside_emit := (sg.inside_emit + 1) % SIZE_MOD })).addLog
          (pass_log env (fns pre) x)) W1
      { sg with inside_emit := (sg.inside_emit + 1) % SIZE_MOD } nc c
      (by simp [World.addLog, World.setSig])
      (by simp only [hsl]; exact slots_deref_at _ _ _ hnot) hc hcall hgone
    have hb : slots_begin (nc :: post) = some nc.id := rfl
    rw [hb, hstep] at hloop1
    have hb0 : slots_begin sg.slots = slots_begin (pre ++ nc :: post) := by rw [hsl]
    rw [← hm, ← hb0] at hloop1
    exact emit_with_returned _ _ n s x w _ sg hs hloop1
  · intro v v1 g hv hd
    simp only [signal.dtor, hv, Option.some.injEq] at hd
    subst hd
    simp [World.setSig, World.setFlag]

/-- C14 at examples. Callables 1, 8, 3 are connected and callable 8 destroys the signal:
`R(5)` calls 1 and 8 and returns the world left by 8. With callables 1, 5, 8, 3, where 5
disconnects itself and calls `R(7)`: the nested emission calls 1 and 8 and returns, callable 5
ends, and the outer emission returns without calling 8 or 3. -/
theorem destroy_during_emit_witness :
    (emit env_nest 4 0 5 world_183).log? = some [(1, 5), (8, 5)] ∧
    world_183_called.sigs 0 = none ∧
    (main env_nest 6 0 (.construct 0 :: (connects 0 0 [1, 5, 8, 3] ++ [.emit 0 5]))).log?
      = some [(1, 5), (5, 5), (1, 7), (8, 7), (50, 5)] ∧
    emit env_nest (3 + 1) 0 5 world_183 = .ok world_183_called ∧
    (∀ (v v1 : World Nat) (g : signal), v.sigs 0 = some g → signal.dtor 0 v = some v1 →
      v1.flags g.destroyed = true ∧ v1.sigs 0 = none) :=
  ⟨by decide, by decide, by decide,
   destroy_during_emit env_nest 3 0 8 5 world_183 world_183_called
    { slots := [⟨1, some 1⟩, ⟨2, some 8⟩, ⟨3, some 3⟩], inside_emit := 0, destroyed := 0 }
    [⟨1, some 1⟩] [⟨3, some 3⟩] ⟨2, some 8⟩
    (by decide) rfl (by decide) rfl
    (env_nest_passive _ (by intro c hc; simp [fns] at hc; subst hc; decide))
    (by decide) rfl (by decide) (by decide)⟩

/-- C19 fails on the code. Callables 1, 9, 3 are connected and callable 9 destroys the signal
and then throws: the callable itself ends by the exception, in a world where the signal is
gone, and the `catch` block of `operator()` then calls `leave_emit()` on the destroyed signal,
which is undefined behaviour. -/
theorem raise_after_destroy_faults :
    (run (emit env_nest 3) 5 (env_nest.code 9) world_193).log? = some [(9, 5)] ∧
    (run (emit env_nest 3) 5 (env_nest.code 9) world_193).world.sigs 0 = none ∧
    (signal.leave_emit 0
      (run (emit env_nest 3) 5 (env_nest.code 9) world_193).world).isNone = true ∧
    (emit env_nest 4 0 5 world_193).isUndefined = true := by
  decide

/-- C17 fails on the code. After `signal()`, `connect` of an empty function and one emission,
the connection is still connected (registry reference, flag reading false) but the compaction
of `leave_emit` has erased its node: the position designates no slot, and `disconnect()` (or the
destructor of the connection) calls `erase` on it, which is undefined behaviour. -/
theorem empty_callable_leaves_stale_connection :
    world_stale.conns 0 = { sig := some 0, destroyed := some 0, it := some 1 } ∧
    world_stale.flags 0 = false ∧
    world_stale.sigs 0 = some { slots := [], inside_emit := 0, destroyed := 0 } ∧
    slots_deref ([] : slots_t) 1 = none ∧
    ((world_stale.conns 0).disconnect world_stale).isNone = true ∧
    (main env_int 3 0
      [.construct 0, .connect 0 0 none, .emit 0 5, .disconnect 0]).isUndefined = true := by
  decide

/-- C11. Let the slots of a live registry `s` be `pre ++ nc :: (q1 ++ nd :: q2)`, where the
callable `c` of `nc` records (`b1`), disconnects the connection `h` of the slot `nd`, calls
`sigs[s](y)` if its argument satisfies `p`, and records again (`b2`), and where the other
callables only record. In an emission with argument `x` that makes `c` call the signal again
(while the argument `y` does not), the nested emission starts in a world `Win` where the slot
of `nd` is empty and one more emission is in progress; it returns in `Wout` having called
exactly the non-empty slots of that list, in list order, and the registry is in `Wout` as it
was in `Win`: same length, the empty slot still there. The outer emission then ends the call of
`c`, calls the remaining non-empty slots and returns; the empty slot is erased at that point
if the outer emission is the outermost one. -/
theorem nested_emit (env : Env α) (s h c fuel : Nat) (x y : α) (w : World α)
    (sg : signal) (pre q1 q2 : slots_t) (nc nd : Node) (b1 b2 : List (Stmt α)) (p : α → Bool)
    (hs : w.sigs s = some sg) (hsl : sg.slots = pre ++ nc :: (q1 ++ nd :: q2))
    (hnd : (ids sg.slots).Nodup)
    (hc : nc.slot = some c) (hcode : env.code c = b1 ++ .disconnect h :: .emit_if p s y :: b2)
    (hb1 : b1.all Stmt.isRecord = true) (hb2 : b2.all Stmt.isRecord = true)
    (hh : w.conns h = { sig := some s, destroyed := some sg.destroyed, it := some nd.id })
    (hpx : p (pass_arg env (fns pre) x) = true) (hpy : p (pass_arg env (fns pre) y) = false)
    (hf : w.flags sg.destroyed = false) (hp : Passive env (fns (pre ++ (q1 ++ q2))))
    (hk : sg.inside_emit + 1 < SIZE_MOD) (hfuel : sg.slots.length + 3 ≤ fuel) :
    ∃ (Win Wout w1 : World α),
      Win.sigs s = some { slots := pre ++ nc :: (q1 ++ { nd with slot := none } :: q2),
                          inside_emit := sg.inside_emit + 1, destroyed := sg.destroyed } ∧
      Win.log = w.log
        ++ (pass_log env (fns pre) x ++ records b1 (pass_arg env (fns pre) x)) ∧
      emit env (fuel - 1) s y Win = .ok Wout ∧
      Wout.log = Win.log
        ++ pass_log env (fns (pre ++ nc :: (q1 ++ { nd with slot := none } :: q2))) y ∧
      Wout.sigs s = Win.sigs s ∧
      emit env fuel s x w = .ok w1 ∧
      w1.log = Wout.log ++ (records b2 (pass_arg env (fns pre) x)
        ++ pass_log env (fns (q1 ++ { nd with slot := none } :: q2))
            (env.forwarded (pass_arg env (fns pre) x))) ∧
      w1.sigs s = some
        { slots := if sg.inside_emit = 0 then compact (pre ++ nc :: (q1 ++ q2))
                   else pre ++ nc :: (q1 ++ { nd with slot := none } :: q2),
          inside_emit := sg.inside_emit, destroyed := sg.destroyed } := by
  have hlen : sg.slots.length = pre.length + q1.length + q2.length + 2 := by
    rw [hsl]; simp only [List.length_append, List.length_cons]; omega
  obtain ⟨m, rfl⟩ : ∃ m, fuel = m + 1 + 1 := ⟨fuel - 2, by omega⟩
  have hpp : Passive env (fns pre ++ (fns q1 ++ fns q2)) := by
    have := hp; simp only [fns, List.map_append] at this; exact this
  have hpre : Passive env (fns pre) := hpp.append_left
  have hpost1 : Passive env (fns (q1 ++ { nd with slot := none } :: q2)) := by
    rw [fns_split]
    exact Passive.insert_none hpp.append_right
  have hmod : (sg.inside_emit + 1) % SIZE_MOD = sg.inside_emit + 1 := size_small_mod _ hk
  have hne : ¬ (sg.inside_emit + 1) % SIZE_MOD = 0 := by rw [hmod]; omega
  have hids : ids (pre ++ nc :: (q1 ++ { nd with slot := none } :: q2)) = ids sg.slots := by
    rw [hsl]; simp [ids]
  have hnd1 : (ids (pre ++ nc :: (q1 ++ { nd with slot := none } :: q2))).Nodup := by
    rw [hids]; exact hnd
  have hassoc : (pre ++ nc :: q1) ++ { nd with slot := none } :: q2
      = pre ++ nc :: (q1 ++ { nd with slot := none } :: q2) := by simp
  -- the body of `c` up to the nested call
  have hdis := exec_disconnect_emitting (emit env (m + 1)) (pass_arg env (fns pre) x) s h
    (((w.setSig s (some { sg with inside_emit := (sg.inside_emit + 1) % SIZE_MOD })).addLog
        (pass_log env (fns pre) x)).addLog (records b1 (pass_arg env (fns pre) x)))
    { sg with inside_emit := (sg.inside_emit + 1) % SIZE_MOD } (pre ++ nc :: q1) q2 nd
    (by simp [World.addLog, World.setSig]) (size_inc_ne_zero _ hk) (by simp [hsl]) hnd
    (by simpa [World.addLog, World.setSig] using hh)
    (by simpa [World.addLog, World.setSig] using hf)
  rw [hassoc] at hdis
  -- the nested emission
  obtain ⟨Wout, hin, hinS, hinF, hinL⟩ := emit_calm env m s c h y y
    (((((w.setSig s (some { sg with inside_emit := (sg.inside_emit + 1) % SIZE_MOD })).addLog
        (pass_log env (fns pre) x)).addLog (records b1 (pass_arg env (fns pre) x))).setSig s
          (some { slots := pre ++ nc :: (q1 ++ { nd with slot := none } :: q2),
                  inside_emit := (sg.inside_emit + 1) % SIZE_MOD,
                  destroyed := sg.destroyed })).setConn h
          { sig := none, destroyed := none, it := some nd.id })
    { slots := pre ++ nc :: (q1 ++ { nd with slot := none } :: q2),
      inside_emit := (sg.inside_emit + 1) % SIZE_MOD, destroyed := sg.destroyed }
    pre (q1 ++ { nd with slot := none } :: q2) nc b1 b2 p
    (by simp [World.addLog, World.setSig, World.setConn]) rfl hnd1 hc hcode hb1 hb2
    (by simp [World.setConn]) hpy
    (by simpa [World.addLog, World.setSig, World.setConn] using hf) hpre hpost1
    (by rw [hmod]; exact hk)
    (by simp only [List.length_append, List.length_cons]; omega)
  simp only [hne, if_false] at hinS
  have hcall : run (emit env (m + 1)) (pass_arg env (fns pre) x) (env.code c)
      ((w.setSig s (some { sg with inside_emit := (sg.inside_emit + 1) % SIZE_MOD })).addLog
        (pass_log env (fns pre) x))
      = .ok (Wout.addLog (records b2 (pass_arg env (fns pre) x))) := by
    rw [hcode, run_records_append _ _ _ _ _ hb1]
    simp only [run, hdis]
    simp only [exec, hpx, if_true, hin]
    exact run_records _ _ _ _ hb2
  obtain ⟨WF, hemit, hWs, _, _, hWl⟩ := emit_special_facts env (m + 1) s c x w _ sg
    { slots := pre ++ nc :: (q1 ++ { nd with slot := none } :: q2),
      inside_emit := (sg.inside_emit + 1) % SIZE_MOD, destroyed := sg.destroyed }
    pre (q1 ++ nd :: q2) (q1 ++ { nd with slot := none } :: q2) nc nc hs hsl hnd hc hpre hf
    (by omega) hcall
    (by
      show Wout.flags sg.destroyed = false
      rw [hinF]; simpa [World.addLog, World.setSig, World.setConn] using hf)
    (by show Wout.sigs s = _; exact hinS) rfl rfl hnd1 hpost1 rfl rfl
    (by simp only [List.length_append, List.length_cons]; omega)
  refine ⟨_, Wout, WF, ?_, ?_, hin, hinL, ?_, hemit, ?_, ?_⟩
  · simp [World.addLog, World.setSig, World.setConn, hmod]
  · simp [World.addLog, World.setSig, World.setConn, List.append_assoc]
  · rw [hinS]; simp [World.addLog, World.setSig, World.setConn]
  · rw [hWl]
    simp [World.addLog, List.append_assoc]
  · rw [hWs]
    have hcomp : compact (pre ++ nc :: (q1 ++ { nd with slot := none } :: q2))
        = compact (pre ++ nc :: (q1 ++ q2)) := by
      simp [compact_append, compact]
    simp only [hcomp]

/-- C11 at an example: callables 1, 5, 3, 4 are connected; in `R(5)` callable 5 disconnects
the connection of callable 3 and calls `R(7)`. The nested emission calls 1, 5 and 4 and leaves
the four slots in place, the third one empty; afterwards callable 5 ends, the outer emission
calls 4, and the empty slot is erased when it returns. -/
theorem nested_emit_witness :
    (emit env_cond 7 0 5 world_1534).log?
      = some [(1, 5), (5, 5), (1, 7), (5, 7), (50, 7), (4, 7), (50, 5), (4, 5)] ∧
    (emit env_cond 7 0 5 world_1534).world.sigs 0
      = some { slots := [⟨1, some 1⟩, ⟨2, some 5⟩, ⟨4, some 4⟩], inside_emit := 0,
               destroyed := 0 } ∧
    ∃ (Win Wout w1 : World Nat),
      Win.sigs 0 = some
        { slots := [⟨1, some 1⟩] ++ ⟨2, some 5⟩ :: ([] ++ { id := 3, slot := none }
            :: [⟨4, some 4⟩]),
          inside_emit := 0 + 1, destroyed := 0 } ∧
      Win.log = world_1534.log
        ++ (pass_log env_cond (fns [⟨1, some 1⟩]) 5
          ++ records [Stmt.record 5] (pass_arg env_cond (fns [⟨1, some 1⟩]) 5)) ∧
      emit env_cond (7 - 1) 0 7 Win = .ok Wout ∧
      Wout.log = Win.log
        ++ pass_log env_cond
            (fns ([⟨1, some 1⟩] ++ ⟨2, some 5⟩ :: ([] ++ { id := 3, slot := none }
              :: [⟨4, some 4⟩]))) 7 ∧
      Wout.sigs 0 = Win.sigs 0 ∧
      emit env_cond 7 0 5 world_1534 = .ok w1 ∧
      w1.log = Wout.log ++ (records [Stmt.record 50] (pass_arg env_cond (fns [⟨1, some 1⟩]) 5)
        ++ pass_log env_cond (fns ([] ++ { id := 3, slot := none } :: [⟨4, some 4⟩]))
            (env_cond.forwarded (pass_arg env_cond (fns [⟨1, some 1⟩]) 5))) ∧
      w1.sigs 0 = some
        { slots := if (0 : Nat) = 0
                   then compact ([⟨1, some 1⟩] ++ ⟨2, some 5⟩ :: ([] ++ [⟨4, some 4⟩]))
                   else [⟨1, some 1⟩] ++ ⟨2, some 5⟩ :: ([] ++ { id := 3, slot := none }
                     :: [⟨4, some 4⟩]),
          inside_emit := 0, destroyed := 0 } :=
  ⟨by decide, by decide,
   nested_emit env_cond 0 2 5 7 5 7 world_1534
    { slots := [⟨1, some 1⟩, ⟨2, some 5⟩, ⟨3, some 3⟩, ⟨4, some 4⟩], inside_emit := 0,
      destroyed := 0 }
    [⟨1, some 1⟩] [] [⟨4, some 4⟩] ⟨2, some 5⟩ ⟨3, some 3⟩ [.record 5] [.record 50]
    (fun v => v == 5)
    (by decide) rfl (by decide) rfl rfl rfl rfl (by decide) rfl rfl (by decide)
    (env_cond_passive _ (by
      intro c hc
      simp [fns] at hc
      rcases hc with rfl | rfl <;> decide))
    (by simp [SIZE_MOD]) (by decide)⟩

end signals
